import Mathlib

/-!
Verification of the multi-agent coordination core of hitl-mcp-cli
(`src/hitl_mcp_cli/coordination/`): channel store, lock manager, rate
limiter, heartbeat manager, auth manager and message signer, shallowly
embedded as pure state-passing functions.  Python dicts are modelled as
association lists with unique keys (first match wins, assignment replaces
in place, as CPython preserves insertion order); `time.time()` is an
explicit rational-number argument; `uuid.uuid4()` is a fresh-counter field;
exceptions are `Except`/result values paired with the post-state, so a
raising call still records the mutations the source performed before the
raise.  SHA-256 and HMAC-SHA256 are abstract function parameters.
-/

/-- Lookup in an association-list dictionary: first matching key. -/
def dget? {κ α : Type} [DecidableEq κ] : List (κ × α) → κ → Option α
  | [], _ => none
  | (k', v) :: t, k => if k' = k then some v else dget? t k

/-- Dictionary assignment, CPython semantics: replace the value in place if
the key is present, else append the new binding at the end. -/
def dset {κ α : Type} [DecidableEq κ] : List (κ × α) → κ → α → List (κ × α)
  | [], k, v => [(k, v)]
  | (k', v') :: t, k, v => if k' = k then (k', v) :: t else (k', v') :: dset t k v

/-- Dictionary deletion (`del d[k]`): remove the first binding of `k`. -/
def dremove {κ α : Type} [DecidableEq κ] : List (κ × α) → κ → List (κ × α)
  | [], _ => []
  | (k', v') :: t, k => if k' = k then t else (k', v') :: dremove t k

/-- Membership test (`k in d`). -/
def dcontains {κ α : Type} [DecidableEq κ] (d : List (κ × α)) (k : κ) : Bool :=
  (dget? d k).isSome

/-- The keys of a dictionary are pairwise distinct. -/
def NodupKeys {κ α : Type} (d : List (κ × α)) : Prop :=
  (d.map Prod.fst).Nodup

instance {κ α : Type} [DecidableEq κ] (d : List (κ × α)) : Decidable (NodupKeys d) :=
  inferInstanceAs (Decidable (d.map Prod.fst).Nodup)

/-- Python set modelled as a duplicate-free list: `s.add(x)`. -/
def setAdd {α : Type} [DecidableEq α] (s : List α) (x : α) : List α :=
  if x ∈ s then s else s ++ [x]

/-- Python `s.discard(x)`. -/
def setDiscard {α : Type} [DecidableEq α] (s : List α) (x : α) : List α :=
  s.filter (fun y => y ≠ x)

/-! ## coordination/schema.py -/

/-- `MessageType` enumeration from `coordination/schema.py`. -/
inductive MessageType where
  | init | acknowledgment
  | sync | capabilities | ownership | coordination_complete
  | question | response | task_assign | task_complete | clarification | progress
  | ready | standby | stop | done
  | conflict_detected | conflict_resolved
deriving DecidableEq

/-- The `required` field lists of `MessageSchema.SCHEMAS`; `none` for the
five message types (`clarification`, `ready`, `standby`, `stop`, `done`)
that have no entry in the table. -/
def MessageSchema.required : MessageType → Option (List String)
  | .init => some []
  | .acknowledgment => some []
  | .sync => some ["config"]
  | .capabilities => some ["capabilities"]
  | .ownership => some ["files"]
  | .coordination_complete => some []
  | .question => some ["question"]
  | .response => some ["answer"]
  | .task_assign => some ["task"]
  | .task_complete => some ["task_id"]
  | .progress => some ["status"]
  | .conflict_detected => some ["conflict_type", "details"]
  | .conflict_resolved => some ["resolution"]
  | _ => none

/-- `MessageSchema.validate_message` for an already-typed message type and a
structured content dict (only key membership matters to validation). -/
def MessageSchema.validate_message (message_type : MessageType)
    (content : List (String × String)) : Bool × Option String :=
  match MessageSchema.required message_type with
  | none => (false, some "No schema defined for message type")
  | some req =>
    match req.find? (fun f => !(content.map Prod.fst).contains f) with
    | some f => (false, some ("Missing required field: " ++ f))
    | none => (true, none)

/-! ## coordination/channels.py -/

/-- Message content: `str | dict[str, Any]`, with structured payloads
modelled by their key/value pairs (values restricted to strings; only key
membership is ever inspected by the code). -/
inductive Content where
  | text (s : String)
  | strukt (fields : List (String × String))
deriving DecidableEq

/-- `Message` dataclass. `id` is the store's uuid counter at creation. -/
structure Message where
  id : Nat
  from_agent : String
  timestamp : ℚ
  type : MessageType
  content : Content
  sequence : Nat
  metadata : List (String × String)
  reply_to : Option Nat
deriving DecidableEq

/-- `Channel` dataclass. -/
structure Channel where
  name : String
  created_at : ℚ
  members : List String
  message_count : Nat
  max_messages : Nat
deriving DecidableEq

/-- `ChannelStore` state: `channels`, `messages` (a `defaultdict(list)`,
absent key reads as `[]`), per-store capacity, per-`(agent, channel)`
sequence counters (`.get` default 0), and the uuid freshness counter.
Subscription fan-out and the per-channel asyncio mutexes are not modelled:
every operation below is one critical section. -/
structure ChannelStore where
  channels : List (String × Channel)
  messages : List (String × List Message)
  max_messages : Nat
  agent_sequences : List ((String × String) × Nat)
  next_id : Nat
deriving DecidableEq

/-- A fresh store (`ChannelStore.__init__`). -/
def ChannelStore.empty (max_messages_per_channel : Nat) : ChannelStore :=
  { channels := [], messages := [], max_messages := max_messages_per_channel,
    agent_sequences := [], next_id := 0 }

/-- The message log of a channel (`self.messages[channel_name]`). -/
def ChannelStore.msgs (st : ChannelStore) (channel_name : String) : List Message :=
  (dget? st.messages channel_name).getD []

/-- Errors raised by `ChannelStore.append`: `ChannelFullError`, and the
`ValueError` raised on schema-validation failure. -/
inductive AppendError where
  | channelFull (channel : String) (capacity : Nat)
  | invalidContent (err : String)
deriving DecidableEq

/-- `ChannelStore.create_channel`. -/
def ChannelStore.create_channel (st : ChannelStore) (t : ℚ) (name : String) :
    Channel × ChannelStore :=
  let fresh : Channel :=
    { name := name, created_at := t, members := [], message_count := 0,
      max_messages := 10000 }
  let st' :=
    if dcontains st.channels name then st
    else { st with channels := dset st.channels name fresh }
  ((dget? st'.channels name).getD fresh, st')

/-- Snapshot returned by `join_channel`. -/
structure JoinInfo where
  channel_name : String
  agent_id : String
  joined_at : ℚ
  other_agents : List String
  message_count : Nat
deriving DecidableEq

/-- `ChannelStore.join_channel`: creates the channel record if absent, adds
the agent to the membership set, returns a status snapshot. -/
def ChannelStore.join_channel (st : ChannelStore) (t : ℚ)
    (channel_name agent_id : String) : JoinInfo × ChannelStore :=
  let fresh : Channel :=
    { name := channel_name, created_at := t, members := [],
      message_count := 0, max_messages := 10000 }
  let st :=
    if dcontains st.channels channel_name then st
    else { st with channels := dset st.channels channel_name fresh }
  match dget? st.channels channel_name with
  | some channel =>
    let channel' := { channel with members := setAdd channel.members agent_id }
    let st := { st with channels := dset st.channels channel_name channel' }
    ({ channel_name := channel_name, agent_id := agent_id, joined_at := t,
       other_agents := (setAdd channel.members agent_id).filter (fun a => a ≠ agent_id),
       message_count := (st.msgs channel_name).length }, st)
  | none =>
    ({ channel_name := channel_name, agent_id := agent_id, joined_at := t,
       other_agents := [], message_count := 0 }, st)

/-- `ChannelStore.leave_channel`. -/
def ChannelStore.leave_channel (st : ChannelStore) (channel_name agent_id : String) :
    ChannelStore :=
  match dget? st.channels channel_name with
  | some channel =>
    let channel' := { channel with members := setDiscard channel.members agent_id }
    { st with channels := dset st.channels channel_name channel' }
  | none => st

/-- `ChannelStore.append`, faithfully ordered: capacity check first; then
the per-agent sequence counter is read and incremented; the message is
built; structured content is then validated and a failure raises, leaving
the already-incremented counter behind; finally the message is appended and
the channel metadata counter bumped only if the channel record exists. -/
def ChannelStore.append (st : ChannelStore) (t : ℚ) (channel_name from_agent : String)
    (message_type : MessageType) (content : Content)
    (metadata : List (String × String)) (reply_to : Option Nat) :
    Except AppendError Nat × ChannelStore :=
  let log := st.msgs channel_name
  if log.length ≥ st.max_messages then
    (.error (.channelFull channel_name st.max_messages), st)
  else
    let seq_key := (from_agent, channel_name)
    let sequence := (dget? st.agent_sequences seq_key).getD 0
    let st := { st with agent_sequences := dset st.agent_sequences seq_key (sequence + 1) }
    let message : Message :=
      { id := st.next_id, from_agent := from_agent, timestamp := t,
        type := message_type, content := content, sequence := sequence,
        metadata := metadata, reply_to := reply_to }
    let st := { st with next_id := st.next_id + 1 }
    let valid :=
      match content with
      | .strukt fields => MessageSchema.validate_message message_type fields
      | .text _ => (true, none)
    if valid.1 then
      let st := { st with messages := dset st.messages channel_name (log ++ [message]) }
      let st :=
        match dget? st.channels channel_name with
        | some channel =>
          let channel' := { channel with message_count := channel.message_count + 1 }
          { st with channels := dset st.channels channel_name channel' }
        | none => st
      (.ok message.id, st)
    else
      (.error (.invalidContent (valid.2.getD "")), st)

/-- One `append` call in a trace. -/
structure AppendCall where
  channel : String
  from_agent : String
  type : MessageType
  content : Content
deriving DecidableEq

/-- Run a sequence of `append` calls (timestamps irrelevant to sequencing). -/
def ChannelStore.runAppends (st : ChannelStore) (calls : List AppendCall) : ChannelStore :=
  calls.foldl
    (fun st c => (st.append 0 c.channel c.from_agent c.type c.content [] none).2) st

/-- Content passes `append`'s schema validation for the given type
(plain-text content always does). -/
def contentValid (message_type : MessageType) (content : Content) : Bool :=
  match content with
  | .text _ => true
  | .strukt fields => (MessageSchema.validate_message message_type fields).1

/-! ## coordination/locks.py -/

/-- `Lock` dataclass. `id` is the manager's uuid counter at creation. -/
structure Lock where
  id : Nat
  name : String
  held_by : String
  acquired_at : ℚ
  expires_at : ℚ
  auto_release_seconds : ℚ
deriving DecidableEq

/-- `LockManager.MAX_LOCKS_PER_AGENT`. -/
def MAX_LOCKS_PER_AGENT : Nat := 10

/-- `LockManager` state: `locks` maps each lock name to at most one `Lock`;
`agent_locks` is a `defaultdict(set)` of lock names per agent; `next_id`
models `uuid.uuid4()` freshness.  The per-name asyncio mutexes and the
background cleanup task are not modelled: each operation below is one
critical section, and the cleanup sweep is an explicit operation. -/
structure LockManager where
  locks : List (String × Lock)
  agent_locks : List (String × List String)
  next_id : Nat
deriving DecidableEq

/-- `LockManager.__init__`. -/
def LockManager.empty : LockManager :=
  { locks := [], agent_locks := [], next_id := 0 }

/-- Result of one `acquire` attempt. -/
inductive AcquireResult where
  | quotaExceeded (agent_id : String) (current maximum : Nat)
  | acquired (lock_id : Nat) (held_by : String) (expires_at : ℚ)
  | notAcquired (held_by : Option String) (expires_at : Option ℚ)
deriving DecidableEq

/-- Whether an `acquire` attempt returned `acquired: true`. -/
def AcquireResult.isAcquired : AcquireResult → Bool
  | .acquired _ _ _ => true
  | _ => false

/-- One iteration of `LockManager.acquire` at wall time `t`: the quota check
(done once, before any waiting), then — under the per-name mutex — grant
when the named lock is absent or expired, else report the current holder.
The source's retry loop repeats exactly this check at later times until the
timeout elapses; a waiting iteration performs no mutation, so the
`notAcquired` outcome stands for both the sleep and the timeout exits. -/
def LockManager.tryAcquire (st : LockManager) (t : ℚ) (lock_name agent_id : String)
    (auto_release_seconds : ℚ) : AcquireResult × LockManager :=
  let current_locks := ((dget? st.agent_locks agent_id).getD []).length
  if current_locks ≥ MAX_LOCKS_PER_AGENT then
    (.quotaExceeded agent_id current_locks MAX_LOCKS_PER_AGENT, st)
  else
    let grant : AcquireResult × LockManager :=
      let lock : Lock :=
        { id := st.next_id, name := lock_name, held_by := agent_id,
          acquired_at := t, expires_at := t + auto_release_seconds,
          auto_release_seconds := auto_release_seconds }
      let held := setAdd ((dget? st.agent_locks agent_id).getD []) lock_name
      (.acquired st.next_id agent_id (t + auto_release_seconds),
       { locks := dset st.locks lock_name lock,
         agent_locks := dset st.agent_locks agent_id held,
         next_id := st.next_id + 1 })
    match dget? st.locks lock_name with
    | none => grant
    | some existing =>
      if t ≥ existing.expires_at then grant
      else (.notAcquired (some existing.held_by) (some existing.expires_at), st)

/-- Errors raised by `LockManager.release` (both are `ValueError` in the
source; the message distinguishes not-found from ownership violation). -/
inductive ReleaseError where
  | notFound (lock_id : Nat)
  | ownershipViolation (lock_id : Nat) (held_by requester : String)
deriving DecidableEq

/-- `LockManager.release`: locate the lock by id (first match in dict
order).  The source's `if not lock_name:` is a Python *truthiness* test on
the found name, so it reports not-found both when no lock has the id and
when the found lock's name is the (falsy) empty string; only then comes the
ownership check, and on success the lock is removed and the name discarded
from the holder's set. -/
def LockManager.release (st : LockManager) (lock_id : Nat) (agent_id : String) :
    Except ReleaseError Bool × LockManager :=
  match st.locks.find? (fun p => p.2.id == lock_id) with
  | none => (.error (.notFound lock_id), st)
  | some (lock_name, _) =>
    if lock_name = "" then (.error (.notFound lock_id), st)
    else
      match dget? st.locks lock_name with
      | none => (.error (.notFound lock_id), st)
      | some lock =>
        if lock.held_by ≠ agent_id then
          (.error (.ownershipViolation lock_id lock.held_by agent_id), st)
        else
          let held := setDiscard ((dget? st.agent_locks agent_id).getD []) lock_name
          (.ok true,
           { st with locks := dremove st.locks lock_name,
                     agent_locks := dset st.agent_locks agent_id held })

/-- `LockManager.release_all`: best-effort bulk release of every lock the
agent holds, then clear the agent's tracked set. -/
def LockManager.release_all (st : LockManager) (agent_id : String) :
    Nat × LockManager :=
  let lock_names := (dget? st.agent_locks agent_id).getD []
  let step := fun (acc : Nat × List (String × Lock)) (lock_name : String) =>
    match dget? acc.2 lock_name with
    | some lock =>
      if lock.held_by == agent_id then (acc.1 + 1, dremove acc.2 lock_name) else acc
    | none => acc
  let res := lock_names.foldl step (0, st.locks)
  (res.1, { st with locks := res.2,
                    agent_locks := dset st.agent_locks agent_id [] })

/-- `LockManager._cleanup_expired` at wall time `t`: collect the expired
`(name, holder)` pairs, then remove each lock and discard the name from
that holder's tracked set. -/
def LockManager.cleanup_expired (st : LockManager) (t : ℚ) : LockManager :=
  let expired := (st.locks.filter (fun p => t ≥ p.2.expires_at)).map
    (fun p => (p.1, p.2.held_by))
  expired.foldl
    (fun st p =>
      if dcontains st.locks p.1 then
        let held := setDiscard ((dget? st.agent_locks p.2).getD []) p.1
        { st with locks := dremove st.locks p.1,
                  agent_locks := dset st.agent_locks p.2 held }
      else st)
    st

/-- One externally invokable `LockManager` operation, for reachability. -/
inductive LockOp where
  | tryAcquire (t : ℚ) (lock_name agent_id : String) (auto_release_seconds : ℚ)
  | release (t : ℚ) (lock_id : Nat) (agent_id : String)
  | releaseAll (agent_id : String)
  | cleanup (t : ℚ)

/-- Run a sequence of lock-manager operations from a state. -/
def LockManager.runOps (st : LockManager) (ops : List LockOp) : LockManager :=
  ops.foldl
    (fun st op =>
      match op with
      | .tryAcquire t n a ar => (st.tryAcquire t n a ar).2
      | .release _ lid a => (st.release lid a).2
      | .releaseAll a => (st.release_all a).2
      | .cleanup t => st.cleanup_expired t)
    st

/-! ## coordination/ratelimit.py -/

/-- `TokenBucket` dataclass; token counts are rationals standing for the
source's floats (all claim-relevant arithmetic is exact). -/
structure TokenBucket where
  capacity : ℚ
  refill_rate : ℚ
  tokens : ℚ
  last_refill : ℚ
deriving DecidableEq

/-- `TokenBucket.refill` at wall time `t`. -/
def TokenBucket.refill (b : TokenBucket) (t : ℚ) : TokenBucket :=
  { b with tokens := min b.capacity (b.tokens + (t - b.last_refill) * b.refill_rate),
           last_refill := t }

/-- `TokenBucket.consume`: refill, then take `count` tokens if available. -/
def TokenBucket.consume (b : TokenBucket) (t : ℚ) (count : ℚ) : Bool × TokenBucket :=
  let b := b.refill t
  if count ≤ b.tokens then (true, { b with tokens := b.tokens - count })
  else (false, b)

/-- `TokenBucket.get_wait_time` after a refill at the same instant: the
refill is a no-op, so the wait is `(count - tokens) / refill_rate`,
clamped at zero. -/
def TokenBucket.get_wait_time (b : TokenBucket) (count : ℚ) : ℚ :=
  if count - b.tokens ≤ 0 then 0 else (count - b.tokens) / b.refill_rate

/-- `RateLimitExceeded`, split by which bucket rejected the call; carries
the limit the error message is tagged with and the suggested wait. -/
inductive RateLimitError where
  | globalLimited (agent_id : String) (limit : Nat) (wait_seconds : ℚ)
  | agentLimited (agent_id : String) (limit : Nat) (wait_seconds : ℚ)
deriving DecidableEq

/-- `RateLimiter` state. The single asyncio lock around `check` is not
modelled: each call below is one critical section. -/
structure RateLimiter where
  default_per_agent_limit : Nat
  global_limit : Nat
  agent_buckets : List (String × TokenBucket)
  global_bucket : TokenBucket
  agent_limits : List (String × Nat)
deriving DecidableEq

/-- `RateLimiter.__init__` at wall time `t`. -/
def RateLimiter.empty (default_per_agent_limit global_limit : Nat) (t : ℚ) :
    RateLimiter :=
  { default_per_agent_limit := default_per_agent_limit,
    global_limit := global_limit,
    agent_buckets := [],
    global_bucket :=
      { capacity := global_limit, refill_rate := global_limit / 60,
        tokens := global_limit, last_refill := t },
    agent_limits := [] }

/-- `RateLimiter._get_agent_bucket`: lazily create the bucket with the
agent's configured (or default) limit, full, at wall time `t`. -/
def RateLimiter.get_agent_bucket (st : RateLimiter) (t : ℚ) (agent_id : String) :
    TokenBucket × RateLimiter :=
  match dget? st.agent_buckets agent_id with
  | some b => (b, st)
  | none =>
    let limit := (dget? st.agent_limits agent_id).getD st.default_per_agent_limit
    let b : TokenBucket :=
      { capacity := limit, refill_rate := limit / 60, tokens := limit,
        last_refill := t }
    (b, { st with agent_buckets := dset st.agent_buckets agent_id b })

/-- `RateLimiter.check` at wall time `t`: consume 1 from the global bucket
(fail tagged global, without touching the per-agent bucket); then consume 1
from the lazily created per-agent bucket; on that failure refund the global
token (`tokens += 1`, no clamp) and fail tagged with the agent's limit. -/
def RateLimiter.check (st : RateLimiter) (t : ℚ) (agent_id : String) :
    Except RateLimitError Bool × RateLimiter :=
  let g := st.global_bucket.consume t 1
  if g.1 then
    let st := { st with global_bucket := g.2 }
    let ab := st.get_agent_bucket t agent_id
    let c := ab.1.consume t 1
    let st := { ab.2 with agent_buckets := dset ab.2.agent_buckets agent_id c.2 }
    if c.1 then (.ok true, st)
    else
      let limit := (dget? st.agent_limits agent_id).getD st.default_per_agent_limit
      let refunded := { st.global_bucket with tokens := st.global_bucket.tokens + 1 }
      (.error (.agentLimited agent_id limit (c.2.get_wait_time 1)),
       { st with global_bucket := refunded })
  else
    let st := { st with global_bucket := g.2 }
    (.error (.globalLimited agent_id st.global_limit (g.2.get_wait_time 1)), st)

/-- Run `k` consecutive `check` calls for one agent at one instant;
the flag is true when every call returned ok. -/
def RateLimiter.checksOk (st : RateLimiter) (t : ℚ) (agent_id : String) :
    Nat → Bool × RateLimiter
  | 0 => (true, st)
  | k + 1 =>
    let c := st.check t agent_id
    let rest := RateLimiter.checksOk c.2 t agent_id k
    ((c.1 matches Except.ok _) && rest.1, rest.2)

/-- Whether a `check` result is a `RateLimitExceeded` tagged with the given
per-agent limit. -/
def isAgentLimitedWith (r : Except RateLimitError Bool) (limit : Nat) : Bool :=
  match r with
  | .error (.agentLimited _ l _) => l == limit
  | _ => false

/-! ## coordination/heartbeat.py -/

/-- Agent liveness states. -/
inductive HealthStatus where
  | alive | missing | dead
deriving DecidableEq

/-- `AgentHealth` dataclass. -/
structure AgentHealth where
  agent_id : String
  last_heartbeat : ℚ
  heartbeat_count : Nat
  status : HealthStatus
  metadata : List (String × String)
deriving DecidableEq

/-- `HeartbeatManager` state. The monitor loop is not modelled; the sweep
`check_agents` is an explicit operation, and callbacks (which only log and
never mutate manager state) are omitted. -/
structure HeartbeatManager where
  heartbeat_interval : ℚ
  missing_threshold : Nat
  dead_threshold : Nat
  agents : List (String × AgentHealth)
deriving DecidableEq

/-- `HeartbeatManager.__init__`. -/
def HeartbeatManager.empty (heartbeat_interval : ℚ)
    (missing_threshold dead_threshold : Nat) : HeartbeatManager :=
  { heartbeat_interval := heartbeat_interval,
    missing_threshold := missing_threshold,
    dead_threshold := dead_threshold, agents := [] }

/-- Python `int(q)`: truncation toward zero. -/
def ratTrunc (q : ℚ) : ℤ :=
  if 0 ≤ q then ⌊q⌋ else -⌊-q⌋

/-- `int(seconds_since / interval)`: whole heartbeat intervals elapsed. -/
def missedBeats (t last_heartbeat interval : ℚ) : ℤ :=
  ratTrunc ((t - last_heartbeat) / interval)

/-- Acknowledgment returned by `heartbeat`. -/
structure HeartbeatAck where
  acknowledged : Bool
  next_heartbeat_by : ℚ
  status : HealthStatus
deriving DecidableEq

/-- `dict.update(metadata)` on the stored metadata. -/
def mergeMeta (old new : List (String × String)) : List (String × String) :=
  new.foldl (fun d p => dset d p.1 p.2) old

/-- `HeartbeatManager.heartbeat` at wall time `t`: create the record on
first call, else refresh `last_heartbeat`, bump the count, merge metadata,
and force the status to `alive`. -/
def HeartbeatManager.heartbeat (st : HeartbeatManager) (t : ℚ) (agent_id : String)
    (metadata : List (String × String)) : HeartbeatAck × HeartbeatManager :=
  let st :=
    match dget? st.agents agent_id with
    | none =>
      let fresh : AgentHealth :=
        { agent_id := agent_id, last_heartbeat := t, heartbeat_count := 1,
          status := .alive, metadata := metadata }
      { st with agents := dset st.agents agent_id fresh }
    | some agent =>
      let agent' : AgentHealth :=
        { agent with last_heartbeat := t, heartbeat_count := agent.heartbeat_count + 1,
                     status := .alive,
                     metadata := if metadata.isEmpty then agent.metadata
                                 else mergeMeta agent.metadata metadata }
      { st with agents := dset st.agents agent_id agent' }
  ({ acknowledged := true, next_heartbeat_by := t + st.heartbeat_interval,
     status := .alive }, st)

/-- The status `_check_agents` assigns from the missed-beat count. -/
def sweepStatus (st : HeartbeatManager) (missed_beats : ℤ) : HealthStatus :=
  if missed_beats ≥ (st.dead_threshold : ℤ) then .dead
  else if missed_beats ≥ (st.missing_threshold : ℤ) then .missing
  else .alive

/-- The `_check_agents` update of one agent's record at wall time `t`. -/
def sweepAgent (st : HeartbeatManager) (t : ℚ) (a : AgentHealth) : AgentHealth :=
  { a with status := sweepStatus st (missedBeats t a.last_heartbeat st.heartbeat_interval) }

/-- `HeartbeatManager._check_agents` at wall time `t`: recompute every
agent's status from its missed-beat count (callback firing omitted — the
registered callbacks never mutate the manager). -/
def HeartbeatManager.check_agents (st : HeartbeatManager) (t : ℚ) : HeartbeatManager :=
  { st with agents := st.agents.map (fun p => (p.1, sweepAgent st t p.2)) }

/-! ## coordination/auth.py -/

/-- `Agent` dataclass (registered credentials). -/
structure Agent where
  agent_id : String
  api_key_hash : String
  created_at : ℚ
  allowed_channels : List String
  permissions : List String
  rate_limit_per_minute : Nat
deriving DecidableEq

/-- `AuthManager` state: the agent map and the key-hash → agent-id reverse
map. -/
structure AuthManager where
  agents : List (String × Agent)
  api_key_to_agent : List (String × String)
deriving DecidableEq

/-- `AuthManager.__init__`. -/
def AuthManager.empty : AuthManager :=
  { agents := [], api_key_to_agent := [] }

/-- `AuthManager.register_agent` with an explicitly supplied API key (the
source draws a random key when none is given; the claims quantify over the
issued key either way).  `h` abstracts `hashlib.sha256(...).hexdigest()`.
Returns the plaintext key and stores only its hash, plus the reverse
mapping. -/
def AuthManager.register_agent (h : String → String) (st : AuthManager) (t : ℚ)
    (agent_id api_key : String) (allowed_channels permissions : List String)
    (rate_limit_per_minute : Nat) : String × AuthManager :=
  let api_key_hash := h api_key
  let agent : Agent :=
    { agent_id := agent_id, api_key_hash := api_key_hash, created_at := t,
      allowed_channels := allowed_channels, permissions := permissions,
      rate_limit_per_minute := rate_limit_per_minute }
  (api_key,
   { agents := dset st.agents agent_id agent,
     api_key_to_agent := dset st.api_key_to_agent api_key_hash agent_id })

/-- `AuthManager.authenticate`: recompute the hash and compare
(`hmac.compare_digest` is equality). -/
def AuthManager.authenticate (h : String → String) (st : AuthManager)
    (agent_id api_key : String) : Bool :=
  match dget? st.agents agent_id with
  | none => false
  | some agent => h api_key == agent.api_key_hash

/-- `AuthManager.get_agent_from_key`. -/
def AuthManager.get_agent_from_key (h : String → String) (st : AuthManager)
    (api_key : String) : Option String :=
  dget? st.api_key_to_agent (h api_key)

/-- Outcome of `revoke_agent`: `False` when the agent is unknown, `True` on
success, and `keyError` for the `KeyError` the source raises when the
reverse entry for the agent's stored hash is already gone (the agent map
entry has been deleted by then, so that partial state is kept). -/
inductive RevokeResult where
  | revoked | notFound | keyError
deriving DecidableEq

/-- `AuthManager.revoke_agent`. -/
def AuthManager.revoke_agent (st : AuthManager) (agent_id : String) :
    RevokeResult × AuthManager :=
  match dget? st.agents agent_id with
  | none => (.notFound, st)
  | some agent =>
    let st1 := { st with agents := dremove st.agents agent_id }
    if dcontains st1.api_key_to_agent agent.api_key_hash then
      (.revoked,
       { st1 with api_key_to_agent := dremove st1.api_key_to_agent agent.api_key_hash })
    else (.keyError, st1)

/-- Run a sequence of registrations `(agent_id, api_key)` with wildcard
channel access and default permissions, as `register_agent` defaults them. -/
def AuthManager.runRegisters (h : String → String) (st : AuthManager)
    (regs : List (String × String)) : AuthManager :=
  regs.foldl
    (fun st p => (AuthManager.register_agent h st 0 p.1 p.2 ["*"]
      ["read", "write", "lock"] 100).2) st

/-! ## coordination/signing.py

`MessageSigner.sign_message` HMAC-signs the canonical JSON serialization
`json.dumps(message_dict, sort_keys=True, separators=(",", ":"))` of the
message dict under the concatenation of the server secret and the agent
secret.  The message dict is modelled as an association list over scalar
JSON values (strings, ints, booleans, null — the value shapes the signing
code never inspects beyond serializing); HMAC-SHA256 is an abstract
function parameter `mac : key → payload → signature`. -/

/-- Scalar JSON value. -/
inductive JValue where
  | jstr (s : String)
  | jint (i : ℤ)
  | jbool (b : Bool)
  | jnull
deriving DecidableEq

/-- A message dictionary. -/
abbrev JObj := List (String × JValue)

/-- Lowercase hex digit, as `%04x` renders it. -/
def hexDigitChar : Nat → Char
  | 0 => '0' | 1 => '1' | 2 => '2' | 3 => '3' | 4 => '4'
  | 5 => '5' | 6 => '6' | 7 => '7' | 8 => '8' | 9 => '9'
  | 10 => 'a' | 11 => 'b' | 12 => 'c' | 13 => 'd' | 14 => 'e' | _ => 'f'

/-- Four-digit lowercase hex of a code unit (`\uXXXX` payload). -/
def hex4 (n : Nat) : List Char :=
  [hexDigitChar (n / 4096 % 16), hexDigitChar (n / 256 % 16),
   hexDigitChar (n / 16 % 16), hexDigitChar (n % 16)]

/-- `json.dumps` string escaping with `ensure_ascii=True` (CPython's
`ESCAPE_ASCII`): quote, backslash and the C short escapes; `\u00xx` for
remaining control characters; `\uXXXX` for every character outside
`0x20..0x7e`, using a surrogate pair beyond the BMP. -/
def escChar (c : Char) : List Char :=
  if c = '"' then ['\\', '"']
  else if c = '\\' then ['\\', '\\']
  else if c = '\n' then ['\\', 'n']
  else if c = '\r' then ['\\', 'r']
  else if c = '\t' then ['\\', 't']
  else if c.toNat = 8 then ['\\', 'b']
  else if c.toNat = 12 then ['\\', 'f']
  else if c.toNat < 32 ∨ 126 < c.toNat then
    if c.toNat < 65536 then '\\' :: 'u' :: hex4 c.toNat
    else
      let v := c.toNat - 65536
      ('\\' :: 'u' :: hex4 (55296 + v / 1024)) ++ ('\\' :: 'u' :: hex4 (56320 + v % 1024))
  else [c]

/-- Escape a character list. -/
def escList : List Char → List Char
  | [] => []
  | c :: t => escChar c ++ escList t

/-- Serialized JSON string literal. -/
def serStr (s : String) : List Char :=
  '"' :: (escList s.data ++ ['"'])

/-- Decimal digit character. -/
def digitChar : Nat → Char
  | 0 => '0' | 1 => '1' | 2 => '2' | 3 => '3' | 4 => '4'
  | 5 => '5' | 6 => '6' | 7 => '7' | 8 => '8' | _ => '9'

/-- Decimal rendering of a natural number, most significant digit first. -/
def natDec (n : Nat) : List Char :=
  if n < 10 then [digitChar n]
  else natDec (n / 10) ++ [digitChar (n % 10)]
termination_by n
decreasing_by exact Nat.div_lt_self (by omega) (by omega)

/-- Python `repr` of an int: optional minus sign, then decimal digits. -/
def intDec (i : ℤ) : List Char :=
  if i < 0 then '-' :: natDec i.natAbs else natDec i.natAbs

/-- Serialized scalar JSON value (`json.dumps` of the Python value). -/
def serValue : JValue → List Char
  | .jstr s => serStr s
  | .jint i => intDec i
  | .jbool true => ['t', 'r', 'u', 'e']
  | .jbool false => ['f', 'a', 'l', 's', 'e']
  | .jnull => ['n', 'u', 'l', 'l']

/-- Serialized `"key":value` entry with the `(",", ":")` separators. -/
def serEntry (e : String × JValue) : List Char :=
  serStr e.1 ++ ':' :: serValue e.2

/-- Comma-joined entry list. -/
def serEntriesList : List (String × JValue) → List Char
  | [] => []
  | [e] => serEntry e
  | e :: f :: t => serEntry e ++ ',' :: serEntriesList (f :: t)

/-- Serialized JSON object. -/
def serObj (l : List (String × JValue)) : List Char :=
  '{' :: (serEntriesList l ++ ['}'])

/-- Key order used by `sort_keys=True` (code-point lexicographic). -/
def keyLE (a b : String × JValue) : Prop := a.1 ≤ b.1

instance : DecidableRel keyLE :=
  fun a b => inferInstanceAs (Decidable (a.1 ≤ b.1))

instance : IsTotal (String × JValue) keyLE :=
  ⟨fun a b => le_total a.1 b.1⟩

instance : IsTrans (String × JValue) keyLE :=
  ⟨fun _ _ _ hab hbc => le_trans hab hbc⟩

/-- `json.dumps(m, sort_keys=True, separators=(",", ":"))`. -/
def canonicalJson (m : JObj) : String :=
  String.mk (serObj (m.insertionSort keyLE))

/-- `MessageSigner.sign_message`: HMAC over the canonical JSON under the
concatenated server and agent secrets (`mac` abstracts HMAC-SHA256). -/
def sign_message (mac : String → String → String) (server_secret : String)
    (m : JObj) (agent_secret : String) : String :=
  mac (server_secret ++ agent_secret) (canonicalJson m)

/-- `MessageSigner.verify_message`: recompute and compare in constant time
(`hmac.compare_digest` is equality on hex digests). -/
def verify_message (mac : String → String → String) (server_secret : String)
    (m : JObj) (signature agent_secret : String) : Bool :=
  signature == sign_message mac server_secret m agent_secret

/-! Parsing artifacts used to prove the canonical serialization injective.
They are proof tooling, not part of the embedded program. -/

/-- Value of a hex digit character. -/
def hexVal (c : Char) : Nat :=
  if 97 ≤ c.toNat then c.toNat - 87 else c.toNat - 48

/-- Inverse step of `escChar`: decode one escaped character. -/
def unescStep (cs : List Char) : Option (Char × List Char) :=
  match cs with
  | [] => none
  | c :: r =>
    if c = '\\' then
      match r with
      | [] => none
      | e :: r1 =>
        if e = '"' then some ('"', r1)
        else if e = '\\' then some ('\\', r1)
        else if e = 'n' then some ('\n', r1)
        else if e = 'r' then some ('\r', r1)
        else if e = 't' then some ('\t', r1)
        else if e = 'b' then some (Char.ofNat 8, r1)
        else if e = 'f' then some (Char.ofNat 12, r1)
        else if e = 'u' then
          match r1 with
          | c1 :: c2 :: c3 :: c4 :: r2 =>
            let n := ((hexVal c1 * 16 + hexVal c2) * 16 + hexVal c3) * 16 + hexVal c4
            if 55296 ≤ n ∧ n ≤ 56319 then
              match r2 with
              | b0 :: b1 :: d1 :: d2 :: d3 :: d4 :: r3 =>
                if b0 = '\\' ∧ b1 = 'u' then
                  let m := ((hexVal d1 * 16 + hexVal d2) * 16 + hexVal d3) * 16 + hexVal d4
                  some (Char.ofNat (65536 + (n - 55296) * 1024 + (m - 56320)), r3)
                else none
              | _ => none
            else some (Char.ofNat n, r2)
          | _ => none
        else none
    else some (c, r)

/-- Decode a string body up to its closing quote. -/
def parseStrBody : Nat → List Char → Option (List Char × List Char)
  | 0, _ => none
  | _ + 1, [] => none
  | fuel + 1, c :: r =>
    if c = '"' then some ([], r)
    else
      match unescStep (c :: r) with
      | some (d, r1) =>
        match parseStrBody fuel r1 with
        | some (s, r2) => some (d :: s, r2)
        | none => none
      | none => none

/-- Decimal digit test. -/
def isDigit (c : Char) : Bool := 48 ≤ c.toNat && c.toNat ≤ 57

/-- Greedily consume decimal digits, accumulating their value. -/
def parseDigits : Nat → List Char → Nat → Nat × List Char
  | 0, cs, acc => (acc, cs)
  | fuel + 1, cs, acc =>
    match cs with
    | [] => (acc, [])
    | c :: r =>
      if isDigit c then parseDigits fuel r (acc * 10 + (c.toNat - 48))
      else (acc, c :: r)

/-- Whether a character list starts with a decimal digit. -/
def digitStart : List Char → Bool
  | [] => false
  | c :: _ => isDigit c

/-- Decode one scalar JSON value. -/
def parseValue (fuel : Nat) (cs : List Char) : Option (JValue × List Char) :=
  match cs with
  | [] => none
  | c :: r =>
    if c = '"' then
      match parseStrBody fuel r with
      | some (s, r1) => some (.jstr (String.mk s), r1)
      | none => none
    else if c = '-' then
      if digitStart r then
        let p := parseDigits fuel r 0
        some (.jint (-(p.1 : ℤ)), p.2)
      else none
    else if isDigit c then
      let p := parseDigits fuel (c :: r) 0
      some (.jint (p.1 : ℤ), p.2)
    else if c = 't' then
      match r with
      | 'r' :: 'u' :: 'e' :: r1 => some (.jbool true, r1)
      | _ => none
    else if c = 'f' then
      match r with
      | 'a' :: 'l' :: 's' :: 'e' :: r1 => some (.jbool false, r1)
      | _ => none
    else if c = 'n' then
      match r with
      | 'u' :: 'l' :: 'l' :: r1 => some (.jnull, r1)
      | _ => none
    else none

/-- Decode one `"key":value` entry. -/
def parseEntry (fuel : Nat) (cs : List Char) : Option ((String × JValue) × List Char) :=
  match cs with
  | [] => none
  | c :: r =>
    if c = '"' then
      match parseStrBody fuel r with
      | some (k, r1) =>
        (match r1 with
          | [] => none
          | c2 :: r2 =>
            if c2 = ':' then
              match parseValue fuel r2 with
              | some (v, r3) => some ((String.mk k, v), r3)
              | none => none
            else none)
      | none => none
    else none

/-- Decode a nonempty comma-separated entry list closed by a brace. -/
def parseEntries (sfuel : Nat) : Nat → List Char → Option (JObj × List Char)
  | 0, _ => none
  | efuel + 1, cs =>
    match parseEntry sfuel cs with
    | some (e, r) =>
      (match r with
        | [] => none
        | c :: r1 =>
          if c = ',' then
            match parseEntries sfuel efuel r1 with
            | some (l, r2) => some (e :: l, r2)
            | none => none
          else if c = '}' then some ([e], r1)
          else none)
    | none => none

/-- Decode a serialized JSON object. -/
def parseObj (sfuel efuel : Nat) (cs : List Char) : Option (JObj × List Char) :=
  match cs with
  | [] => none
  | c :: r =>
    if c = '{' then
      match r with
      | [] => none
      | c2 :: r2 =>
        if c2 = '}' then some ([], r2) else parseEntries sfuel efuel (c2 :: r2)
    else none

/-- Equality of message dicts as key-value maps. -/
def EqAsMaps (m1 m2 : JObj) : Prop :=
  ∀ f, dget? m1 f = dget? m2 f

/-! ## Observers and concrete states used by the claims -/

/-- The sequence numbers of the messages agent `a` successfully appended to
channel `c`, in append order. -/
def agentSeqs (st : ChannelStore) (c a : String) : List Nat :=
  ((st.msgs c).filter (fun m => m.from_agent == a)).map Message.sequence

/-- The rate-limiter state after `j ≥ 1` successful same-instant checks by
agent `a` on a freshly constructed limiter. -/
def c4State (N G : Nat) (t : ℚ) (a : String) (j : Nat) : RateLimiter :=
  { default_per_agent_limit := N,
    global_limit := G,
    agent_buckets :=
      [(a, { capacity := N, refill_rate := N / 60, tokens := (N : ℚ) - j,
             last_refill := t })],
    global_bucket :=
      { capacity := G, refill_rate := G / 60, tokens := (G : ℚ) - j,
        last_refill := t },
    agent_limits := [] }

/-- A lock manager holding one lock: `"res"` by agent `"a"`, acquired at
time 0 with a 5-second lease (the state `tryAcquire` produces from the
empty manager, written literally). -/
def lockStW : LockManager :=
  { locks := [("res",
      { id := 0, name := "res", held_by := "a", acquired_at := 0, expires_at := 5,
        auto_release_seconds := 5 })],
    agent_locks := [("a", ["res"])],
    next_id := 1 }

/-- A lock manager holding one lock stored under the empty-string name,
held by agent `"a"` (the state `tryAcquire "" ...` produces from the empty
manager, written literally). -/
def lockStEmptyName : LockManager :=
  { locks := [("",
      { id := 0, name := "", held_by := "a", acquired_at := 0, expires_at := 5,
        auto_release_seconds := 5 })],
    agent_locks := [("a", [""])],
    next_id := 1 }

/-- A channel store of capacity 1 whose only channel `"c"` is full. -/
def chanStW : ChannelStore :=
  ((ChannelStore.empty 1).append 0 "c" "a" .init (.text "m") [] none).2

/-- A heartbeat manager (interval 30, thresholds 2/3) that saw one
heartbeat from `"a"` at time 0. -/
def hbStW : HeartbeatManager :=
  ((HeartbeatManager.empty 30 2 3).heartbeat 0 "a" []).2

/-- Append trace witnessing the sequence-number gap: a schema-invalid
`task_assign` between two valid appends by the same agent. -/
def gapCalls : List AppendCall :=
  [{ channel := "c", from_agent := "a", type := .init, content := .text "x" },
   { channel := "c", from_agent := "a", type := .task_assign, content := .strukt [] },
   { channel := "c", from_agent := "a", type := .init, content := .text "y" }]

/-- An all-valid append trace interleaving two agents on one channel. -/
def okCalls : List AppendCall :=
  [{ channel := "c", from_agent := "a", type := .init, content := .text "x" },
   { channel := "c", from_agent := "b", type := .task_assign, content := .strukt [] },
   { channel := "d", from_agent := "a", type := .init, content := .text "z" },
   { channel := "c", from_agent := "b", type := .ready, content := .text "w" },
   { channel := "c", from_agent := "a", type := .task_assign,
     content := .strukt [("task", "t1")] },
   { channel := "c", from_agent := "a", type := .progress,
     content := .strukt [("status", "ok")] }]

/-- The auth state after registering `("a", "k1")` then `("b", "k2")` under
the identity hash and revoking `"a"`, written literally. -/
def authStW : AuthManager :=
  AuthManager.mk
    [("b", { agent_id := "b", api_key_hash := "k2", created_at := 0,
             allowed_channels := ["*"], permissions := ["read", "write", "lock"],
             rate_limit_per_minute := 100 })]
    [("k2", "b")]

/-! ## Dictionary lemmas -/

theorem dget?_dset_self {κ α : Type} [DecidableEq κ] (d : List (κ × α)) (k : κ) (v : α) :
    dget? (dset d k v) k = some v := by
  induction d with
  | nil => simp [dset, dget?]
  | cons p t ih =>
    by_cases h : p.1 = k
    · simp [dset, dget?, h]
    · simp [dset, dget?, h, ih]

theorem dget?_dset_of_ne {κ α : Type} [DecidableEq κ] (d : List (κ × α)) (k k' : κ)
    (v : α) (h : k ≠ k') : dget? (dset d k v) k' = dget? d k' := by
  induction d with
  | nil => simp [dset, dget?, h]
  | cons p t ih =>
    by_cases hp : p.1 = k
    · simp [dset, dget?, hp, h]
    · simp [dset, dget?, hp, ih]

theorem dget?_dremove_of_ne {κ α : Type} [DecidableEq κ] (d : List (κ × α)) (k k' : κ)
    (h : k ≠ k') : dget? (dremove d k) k' = dget? d k' := by
  induction d with
  | nil => simp [dremove]
  | cons p t ih =>
    by_cases hp : p.1 = k
    · simp [dremove, dget?, hp, h]
    · simp [dremove, dget?, hp, ih]

theorem dget?_eq_none_iff {κ α : Type} [DecidableEq κ] (d : List (κ × α)) (k : κ) :
    dget? d k = none ↔ k ∉ d.map Prod.fst := by
  induction d with
  | nil => simp [dget?]
  | cons p t ih =>
    by_cases hp : p.1 = k
    · simp [dget?, hp]
    · simp [dget?, hp, ih, Ne.symm hp]

theorem dget?_dremove_self {κ α : Type} [DecidableEq κ] (d : List (κ × α)) (k : κ)
    (h : NodupKeys d) : dget? (dremove d k) k = none := by
  induction d with
  | nil => rfl
  | cons p t ih =>
    rw [NodupKeys, List.map_cons, List.nodup_cons] at h
    by_cases hp : p.1 = k
    · rw [dremove, if_pos hp, dget?_eq_none_iff]
      exact hp ▸ h.1
    · simp [dremove, dget?, hp, ih h.2]

theorem memKeys_dset {κ α : Type} [DecidableEq κ] {d : List (κ × α)} {k x : κ} {v : α}
    (h : x ∈ (dset d k v).map Prod.fst) : x ∈ d.map Prod.fst ∨ x = k := by
  induction d with
  | nil => simp [dset] at h; simp [h]
  | cons p t ih =>
    by_cases hp : p.1 = k
    · rw [dset, if_pos hp] at h
      simp only [List.map_cons, List.mem_cons] at h ⊢
      tauto
    · rw [dset, if_neg hp] at h
      simp only [List.map_cons, List.mem_cons] at h ⊢
      rcases h with h | h
      · tauto
      · rcases ih h with h1 | h1 <;> tauto

theorem nodupKeys_dset {κ α : Type} [DecidableEq κ] (d : List (κ × α)) (k : κ) (v : α)
    (h : NodupKeys d) : NodupKeys (dset d k v) := by
  induction d with
  | nil => simp [dset, NodupKeys]
  | cons p t ih =>
    rw [NodupKeys, List.map_cons, List.nodup_cons] at h
    by_cases hp : p.1 = k
    · rw [NodupKeys, dset, if_pos hp, List.map_cons, List.nodup_cons]
      exact h
    · rw [NodupKeys, dset, if_neg hp, List.map_cons, List.nodup_cons]
      refine ⟨fun hmem => ?_, ih h.2⟩
      rcases memKeys_dset hmem with h1 | h1
      · exact h.1 h1
      · exact hp h1

theorem keys_dremove_sublist {κ α : Type} [DecidableEq κ] (d : List (κ × α)) (k : κ) :
    ((dremove d k).map Prod.fst).Sublist (d.map Prod.fst) := by
  induction d with
  | nil => simp [dremove]
  | cons p t ih =>
    by_cases hp : p.1 = k
    · rw [dremove, if_pos hp, List.map_cons]
      exact (List.sublist_cons_self _ _)
    · rw [dremove, if_neg hp, List.map_cons, List.map_cons]
      exact ih.cons₂ p.1

theorem nodupKeys_dremove {κ α : Type} [DecidableEq κ] (d : List (κ × α)) (k : κ)
    (h : NodupKeys d) : NodupKeys (dremove d k) := by
  exact List.Nodup.sublist (keys_dremove_sublist d k) h

theorem dget?_of_mem {κ α : Type} [DecidableEq κ] {d : List (κ × α)} {k : κ} {v : α}
    (h : NodupKeys d) (hm : (k, v) ∈ d) : dget? d k = some v := by
  induction d with
  | nil => cases hm
  | cons p t ih =>
    rw [NodupKeys, List.map_cons, List.nodup_cons] at h
    rcases List.mem_cons.mp hm with h1 | h1
    · simp [dget?, ← h1]
    · have hp : p.1 ≠ k := by
        intro hk
        exact h.1 (hk ▸ (List.mem_map.mpr ⟨(k, v), h1, rfl⟩))
      simp [dget?, hp, ih h.2 h1]

theorem mem_of_dget? {κ α : Type} [DecidableEq κ] {d : List (κ × α)} {k : κ} {v : α}
    (h : dget? d k = some v) : (k, v) ∈ d := by
  induction d with
  | nil => cases h
  | cons p t ih =>
    simp only [dget?] at h
    by_cases hp : p.1 = k
    · rw [if_pos hp] at h
      have : p = (k, v) := by
        cases p
        simp only [Option.some.injEq] at h
        simp_all
      exact this ▸ List.mem_cons_self p t
    · rw [if_neg hp] at h
      exact List.mem_cons_of_mem _ (ih h)

theorem dget?_mapVal {κ α β : Type} [DecidableEq κ] (d : List (κ × α)) (f : κ → α → β)
    (k : κ) : dget? (d.map (fun p => (p.1, f p.1 p.2))) k = (dget? d k).map (f k) := by
  induction d with
  | nil => rfl
  | cons p t ih =>
    by_cases hp : p.1 = k
    · subst hp
      simp [dget?]
    · simp [dget?, hp, ih]

theorem dcontains_dset_self {κ α : Type} [DecidableEq κ] (d : List (κ × α)) (k : κ)
    (v : α) : dcontains (dset d k v) k = true := by
  simp [dcontains, dget?_dset_self]

theorem foldl_preserves {α β : Type} (P : α → Prop) (f : α → β → α)
    (hf : ∀ a b, P a → P (f a b)) : ∀ (l : List β) (a : α), P a → P (l.foldl f a) := by
  intro l
  induction l with
  | nil => intro a ha; exact ha
  | cons b t ih => intro a ha; exact ih (f a b) (hf a b ha)

/-! ## Claims about ChannelStore capacity and channel creation -/

/-- C3: once a channel's log holds `max_messages` messages, any further
append raises `ChannelFullError` and leaves the store — in particular that
channel's log — completely unchanged; nothing is evicted or replaced. -/
theorem claim_c3 (st : ChannelStore) (t : ℚ) (c a : String) (mt : MessageType)
    (content : Content) (md : List (String × String)) (rt : Option Nat)
    (hfull : (st.msgs c).length = st.max_messages) :
    st.append t c a mt content md rt = (.error (.channelFull c st.max_messages), st) := by
  unfold ChannelStore.append
  rw [if_pos (le_of_eq hfull.symm)]

theorem claim_c3_witness :
    (chanStW.msgs "c").length = chanStW.max_messages ∧
      chanStW.append 1 "c" "b" .ready (.text "x") [] none
        = (.error (.channelFull "c" chanStW.max_messages), chanStW) :=
  ⟨by decide, claim_c3 chanStW 1 "c" "b" .ready (.text "x") [] none (by decide)⟩

/-- C7 counterexample: on a fresh store, an `append` to the unknown channel
`"c"` succeeds, yet no channel record for `"c"` comes into existence —
refuting that a channel exists after any successful append to its name. -/
theorem claim_c7_counterexample :
    ((ChannelStore.empty 10).append 0 "c" "a" .init (.text "hi") [] none).1 = .ok 0 ∧
      dcontains ((ChannelStore.empty 10).append 0 "c" "a" .init (.text "hi") [] none).2.channels
        "c" = false := by
  constructor
  · rfl
  · rfl

/-- C7 (amended): a channel record comes into existence implicitly on first
join (or explicit `create_channel`): after any `joinChannel` the channel
exists in the store's channel set.  A successful `append` naming a
previously unknown channel stores the message but does not create the
channel record. -/
theorem claim_c7 (st : ChannelStore) (t : ℚ) (c a : String) (mt : MessageType)
    (content : Content) (md : List (String × String)) (rt : Option Nat) :
    dcontains ((st.join_channel t c a).2).channels c = true ∧
      (dcontains st.channels c = false →
        ∀ mid st2, st.append t c a mt content md rt = (.ok mid, st2) →
          dcontains st2.channels c = false ∧ st2.msgs c = st.msgs c ++
            [{ id := st.next_id, from_agent := a, timestamp := t, type := mt,
               content := content, sequence := (dget? st.agent_sequences (a, c)).getD 0,
               metadata := md, reply_to := rt }]) := by
  constructor
  · by_cases h : dcontains st.channels c = true
    · simp only [ChannelStore.join_channel, if_pos h]
      rcases Option.isSome_iff_exists.mp h with ⟨ch, hch⟩
      simp only [hch]
      simp [dcontains, dget?_dset_self]
    · simp only [ChannelStore.join_channel, if_neg h]
      have hset : dget? (dset st.channels c
          { name := c, created_at := t, members := [], message_count := 0,
            max_messages := 10000 }) c = some
          { name := c, created_at := t, members := [], message_count := 0,
            max_messages := 10000 } := dget?_dset_self _ _ _
      simp only [hset]
      simp [dcontains, dget?_dset_self]
  · intro hno mid st2 happ
    have hnone : dget? st.channels c = none := by
      rcases h : dget? st.channels c with _ | ch
      · rfl
      · rw [dcontains, h] at hno
        cases hno
    unfold ChannelStore.append at happ
    by_cases hcap : (st.msgs c).length ≥ st.max_messages
    · rw [if_pos hcap] at happ
      cases happ
    · rw [if_neg hcap] at happ
      rcases hval : (match content with
        | .strukt fields => MessageSchema.validate_message mt fields
        | .text _ => (true, none)) with ⟨vb, verr⟩
      simp only [hval] at happ
      by_cases hvb : vb = true
      · rw [hvb] at happ
        simp only [if_pos rfl, hnone] at happ
        have hst2 : st2 = { st with
            agent_sequences := dset st.agent_sequences (a, c)
              ((dget? st.agent_sequences (a, c)).getD 0 + 1),
            next_id := st.next_id + 1,
            messages := dset st.messages c (st.msgs c ++
              [{ id := st.next_id, from_agent := a, timestamp := t, type := mt,
                 content := content, sequence := (dget? st.agent_sequences (a, c)).getD 0,
                 metadata := md, reply_to := rt }]) } := by
          cases happ
          rfl
        subst hst2
        refine ⟨by rw [dcontains, hnone]; rfl, ?_⟩
        show (dget? (dset st.messages c _) c).getD [] = _
        rw [dget?_dset_self]
        rfl
      · simp only [if_neg hvb] at happ
        cases happ

theorem claim_c7_witness :
    dcontains (((ChannelStore.empty 10).join_channel 0 "c" "a").2).channels "c" = true ∧
      dcontains ((ChannelStore.empty 10).append 0 "c" "a" .init (.text "hi") [] none).2.channels
          "c" = false ∧
        ((ChannelStore.empty 10).append 0 "c" "a" .init (.text "hi") [] none).2.msgs "c"
          = (ChannelStore.empty 10).msgs "c" ++
            [{ id := 0, from_agent := "a", timestamp := 0, type := .init,
               content := .text "hi", sequence := 0, metadata := [], reply_to := none }] := by
  refine ⟨(claim_c7 (ChannelStore.empty 10) 0 "c" "a" .init (.text "hi") [] none).1, ?_, ?_⟩
  · exact ((claim_c7 (ChannelStore.empty 10) 0 "c" "a" .init (.text "hi") [] none).2
      (by decide) 0 _ rfl).1
  · exact ((claim_c7 (ChannelStore.empty 10) 0 "c" "a" .init (.text "hi") [] none).2
      (by decide) 0 _ rfl).2

/-! ## Claims about LockManager -/

/-- C10: when `acquire` grants lock `name` to agent `B` because agent `A`'s
lease has expired, the takeover succeeds but leaves `A`'s tracked lock-name
set untouched — `A`'s `agent_locks` entry (which the quota check counts) is
exactly what it was before the takeover. -/
theorem claim_c10 (st : LockManager) (t : ℚ) (name A B : String) (l : Lock) (ar : ℚ)
    (hlock : dget? st.locks name = some l) (_hheld : l.held_by = A) (hAB : A ≠ B)
    (hexp : t ≥ l.expires_at)
    (hquota : ((dget? st.agent_locks B).getD []).length < MAX_LOCKS_PER_AGENT) :
    ((st.tryAcquire t name B ar).1).isAcquired = true ∧
      dget? ((st.tryAcquire t name B ar).2).agent_locks A = dget? st.agent_locks A := by
  unfold LockManager.tryAcquire
  rw [if_neg (by omega)]
  simp only [hlock, if_pos hexp]
  exact ⟨rfl, dget?_dset_of_ne _ _ _ _ (Ne.symm hAB)⟩

theorem claim_c10_witness :
    ((lockStW.tryAcquire 6 "res" "b" 5).1).isAcquired = true ∧
      dget? ((lockStW.tryAcquire 6 "res" "b" 5).2).agent_locks "a"
        = dget? lockStW.agent_locks "a" :=
  claim_c10 lockStW 6 "res" "a" "b"
    { id := 0, name := "res", held_by := "a", acquired_at := 0, expires_at := 5,
      auto_release_seconds := 5 } 5
    (by decide) rfl (by decide) (by decide) (by decide)

theorem nodup_locks_tryAcquire (s : LockManager) (t : ℚ) (n a : String) (ar : ℚ)
    (hs : NodupKeys s.locks) : NodupKeys ((s.tryAcquire t n a ar).2).locks := by
  unfold LockManager.tryAcquire
  by_cases hq : ((dget? s.agent_locks a).getD []).length ≥ MAX_LOCKS_PER_AGENT
  · rw [if_pos hq]
    exact hs
  · rw [if_neg hq]
    rcases h : dget? s.locks n with _ | ex
    · simp only [h]
      exact nodupKeys_dset _ _ _ hs
    · simp only [h]
      by_cases he : t ≥ ex.expires_at
      · rw [if_pos he]
        exact nodupKeys_dset _ _ _ hs
      · rw [if_neg he]
        exact hs

theorem nodup_locks_release (s : LockManager) (lid : Nat) (a : String)
    (hs : NodupKeys s.locks) : NodupKeys ((s.release lid a).2).locks := by
  unfold LockManager.release
  rcases h : s.locks.find? (fun p => p.2.id == lid) with _ | ⟨nm, l0⟩
  · simp only [h]
    exact hs
  · simp only [h]
    by_cases hnm : nm = ""
    · rw [if_pos hnm]
      exact hs
    rw [if_neg hnm]
    rcases h2 : dget? s.locks nm with _ | lk
    · simp only [h2]
      exact hs
    · simp only [h2]
      by_cases ho : lk.held_by ≠ a
      · rw [if_pos ho]
        exact hs
      · rw [if_neg ho]
        exact nodupKeys_dremove _ _ hs

theorem nodup_locks_release_all (s : LockManager) (a : String)
    (hs : NodupKeys s.locks) : NodupKeys ((s.release_all a).2).locks := by
  unfold LockManager.release_all
  refine foldl_preserves (fun acc : Nat × List (String × Lock) => NodupKeys acc.2)
    _ ?_ _ (0, s.locks) hs
  intro acc b hacc
  rcases h : dget? acc.2 b with _ | lk
  · simp only [h]
    exact hacc
  · simp only [h]
    by_cases hb : (lk.held_by == a) = true
    · rw [if_pos hb]
      exact nodupKeys_dremove _ _ hacc
    · rw [if_neg hb]
      exact hacc

theorem nodup_locks_cleanup (s : LockManager) (t : ℚ)
    (hs : NodupKeys s.locks) : NodupKeys ((s.cleanup_expired t)).locks := by
  unfold LockManager.cleanup_expired
  refine foldl_preserves (fun s : LockManager => NodupKeys s.locks) _ ?_ _ s hs
  intro s2 p hs2
  by_cases hc : dcontains s2.locks p.1 = true
  · rw [if_pos hc]
    exact nodupKeys_dremove _ _ hs2
  · rw [if_neg hc]
    exact hs2

/-- C2: the lock table maps each name to at most one `Lock` in every state
reachable by lock-manager operations (key uniqueness is preserved), and an
`acquire` attempt made while the named lock is held and unexpired never
returns `acquired: true` and performs no mutation — so among contending
acquires, only one can win while a previous lease is neither expired nor
released. -/
theorem claim_c2 (st : LockManager) (ops : List LockOp) (t : ℚ)
    (name agent : String) (ar : ℚ) (l : Lock)
    (hnd : NodupKeys st.locks)
    (hheld : dget? st.locks name = some l) (hlive : t < l.expires_at) :
    NodupKeys (LockManager.runOps st ops).locks ∧
      (st.tryAcquire t name agent ar).1.isAcquired = false ∧
      (st.tryAcquire t name agent ar).2 = st := by
  have hfrozen : (st.tryAcquire t name agent ar) =
      if ((dget? st.agent_locks agent).getD []).length ≥ MAX_LOCKS_PER_AGENT then
        (.quotaExceeded agent ((dget? st.agent_locks agent).getD []).length
          MAX_LOCKS_PER_AGENT, st)
      else (.notAcquired (some l.held_by) (some l.expires_at), st) := by
    unfold LockManager.tryAcquire
    by_cases hq : ((dget? st.agent_locks agent).getD []).length ≥ MAX_LOCKS_PER_AGENT
    · rw [if_pos hq, if_pos hq]
    · rw [if_neg hq, if_neg hq]
      simp only [hheld]
      rw [if_neg (not_le.mpr hlive)]
  refine ⟨?_, ?_, ?_⟩
  · unfold LockManager.runOps
    refine foldl_preserves (fun s : LockManager => NodupKeys s.locks) _ ?_ ops st hnd
    intro s op hs
    rcases op with ⟨t', n, a, ar'⟩ | ⟨t', lid, a⟩ | a | t'
    · exact nodup_locks_tryAcquire s t' n a ar' hs
    · exact nodup_locks_release s lid a hs
    · exact nodup_locks_release_all s a hs
    · exact nodup_locks_cleanup s t' hs
  · rw [hfrozen]
    by_cases hq : ((dget? st.agent_locks agent).getD []).length ≥ MAX_LOCKS_PER_AGENT
    · rw [if_pos hq]
      rfl
    · rw [if_neg hq]
      rfl
  · rw [hfrozen]
    by_cases hq : ((dget? st.agent_locks agent).getD []).length ≥ MAX_LOCKS_PER_AGENT
    · rw [if_pos hq]
    · rw [if_neg hq]

theorem claim_c2_witness :
    NodupKeys (LockManager.runOps lockStW
        [.tryAcquire 1 "res" "b" 5, .tryAcquire 6 "res" "c" 5,
         .release 7 1 "c", .releaseAll "a", .cleanup 20]).locks ∧
      (lockStW.tryAcquire 1 "res" "b" 5).1.isAcquired = false ∧
      (lockStW.tryAcquire 1 "res" "b" 5).2 = lockStW :=
  claim_c2 lockStW
    [.tryAcquire 1 "res" "b" 5, .tryAcquire 6 "res" "c" 5,
     .release 7 1 "c", .releaseAll "a", .cleanup 20]
    1 "res" "b" 5
    { id := 0, name := "res", held_by := "a", acquired_at := 0, expires_at := 5,
      auto_release_seconds := 5 }
    (by decide) (by decide) (by decide)

/-- C6 counterexample: the lock store holds a lock with id 0 under the
empty-string name, held by agent `"a"` — yet `release(0, "a")` by the
holder itself raises not-found and changes nothing, because the source's
`if not lock_name:` treats the found empty-string name as falsy.  This
refutes the claim's ownership-violation and success clauses as quantified
over every lock name. -/
theorem claim_c6_counterexample :
    dget? lockStEmptyName.locks ""
        = some { id := 0, name := "", held_by := "a", acquired_at := 0,
                 expires_at := 5, auto_release_seconds := 5 } ∧
      lockStEmptyName.release 0 "a" = (.error (.notFound 0), lockStEmptyName) :=
  ⟨rfl, rfl⟩

/-- C6 (amended): `release(lockId, agentId)` fails with not-found when no
lock has id `lockId`, leaving the state unchanged; it also fails with
not-found — again changing nothing — when the lock found by id is stored
under the empty-string name, whoever holds it.  For a lock under any
nonempty name, it fails with an ownership violation when the holder differs
from the caller, leaving the state (in particular the lock's holder and
expiry) unchanged, and on success removes the lock and returns
`released: true`. -/
theorem claim_c6 (st : LockManager) (lid : Nat) (a name : String) (lock : Lock) :
    ((∀ p ∈ st.locks, p.2.id ≠ lid) →
        st.release lid a = (.error (.notFound lid), st)) ∧
      (st.locks.find? (fun p => p.2.id == lid) = some ("", lock) →
        st.release lid a = (.error (.notFound lid), st)) ∧
      (NodupKeys st.locks → st.locks.find? (fun p => p.2.id == lid) = some (name, lock) →
        name ≠ "" → lock.held_by ≠ a →
        st.release lid a = (.error (.ownershipViolation lid lock.held_by a), st)) ∧
      (NodupKeys st.locks → st.locks.find? (fun p => p.2.id == lid) = some (name, lock) →
        name ≠ "" → lock.held_by = a →
        (st.release lid a).1 = .ok true ∧
          dget? (st.release lid a).2.locks name = none) := by
  refine ⟨?_, ?_, ?_, ?_⟩
  · intro hnone
    have hf : st.locks.find? (fun p => p.2.id == lid) = none := by
      rw [List.find?_eq_none]
      intro p hp
      simp [hnone p hp]
    unfold LockManager.release
    rw [hf]
  · intro hf
    unfold LockManager.release
    rw [hf]
    dsimp only
    rw [if_pos rfl]
  · intro hnd hf hname hown
    have hmem : (name, lock) ∈ st.locks := List.mem_of_find?_eq_some hf
    have hget : dget? st.locks name = some lock := dget?_of_mem hnd hmem
    unfold LockManager.release
    rw [hf]
    dsimp only
    rw [if_neg hname]
    simp only [hget]
    rw [if_pos hown]
  · intro hnd hf hname hown
    have hmem : (name, lock) ∈ st.locks := List.mem_of_find?_eq_some hf
    have hget : dget? st.locks name = some lock := dget?_of_mem hnd hmem
    unfold LockManager.release
    rw [hf]
    dsimp only
    rw [if_neg hname]
    simp only [hget]
    rw [if_neg (by simp [hown])]
    exact ⟨rfl, dget?_dremove_self _ _ hnd⟩

theorem claim_c6_witness :
    (lockStW.release 9 "a" = (.error (.notFound 9), lockStW)) ∧
      (lockStEmptyName.release 0 "b"
        = (.error (.notFound 0), lockStEmptyName)) ∧
      (lockStW.release 0 "b"
        = (.error (.ownershipViolation 0 "a" "b"), lockStW)) ∧
      ((lockStW.release 0 "a").1 = .ok true ∧
        dget? (lockStW.release 0 "a").2.locks "res" = none) :=
  ⟨(claim_c6 lockStW 9 "a" "res"
      { id := 0, name := "res", held_by := "a", acquired_at := 0, expires_at := 5,
        auto_release_seconds := 5 }).1 (by decide),
   ((claim_c6 lockStEmptyName 0 "b" ""
      { id := 0, name := "", held_by := "a", acquired_at := 0, expires_at := 5,
        auto_release_seconds := 5 }).2.1 (by decide)),
   ((claim_c6 lockStW 0 "b" "res"
      { id := 0, name := "res", held_by := "a", acquired_at := 0, expires_at := 5,
        auto_release_seconds := 5 }).2.2.1 (by decide) (by decide) (by decide)
      (by decide)),
   ((claim_c6 lockStW 0 "a" "res"
      { id := 0, name := "res", held_by := "a", acquired_at := 0, expires_at := 5,
        auto_release_seconds := 5 }).2.2.2 (by decide) (by decide) (by decide)
      (by decide))⟩

/-! ## Claims about HeartbeatManager -/

theorem dget?_map_values {κ α β : Type} [DecidableEq κ] (d : List (κ × α)) (g : α → β)
    (k : κ) : dget? (d.map (fun p => (p.1, g p.2))) k = (dget? d k).map g := by
  induction d with
  | nil => rfl
  | cons p t ih =>
    by_cases hp : p.1 = k
    · simp [dget?, hp]
    · simp [dget?, hp, ih]

theorem missedBeats_same (t interval : ℚ) : missedBeats t t interval = 0 := by
  unfold missedBeats ratTrunc
  rw [sub_self, zero_div, if_pos le_rfl, Int.floor_zero]

/-- C5: the health sweep classifies an agent `dead` when at least
`dead_threshold` heartbeat intervals have elapsed since its last heartbeat,
`missing` when at least `missing_threshold` (but fewer than
`dead_threshold`) have, and a fresh heartbeat at any time — whatever the
previous status, including `dead` — immediately records status `alive` with
a missed-beat count of 0. -/
theorem claim_c5 (st : HeartbeatManager) (t : ℚ) (aid : String) (h : AgentHealth)
    (md : List (String × String)) (hget : dget? st.agents aid = some h) :
    (missedBeats t h.last_heartbeat st.heartbeat_interval ≥ (st.dead_threshold : ℤ) →
      dget? (st.check_agents t).agents aid = some { h with status := .dead }) ∧
      ((st.missing_threshold : ℤ) ≤ missedBeats t h.last_heartbeat st.heartbeat_interval →
        missedBeats t h.last_heartbeat st.heartbeat_interval < (st.dead_threshold : ℤ) →
        dget? (st.check_agents t).agents aid = some { h with status := .missing }) ∧
      (∃ h2, dget? ((st.heartbeat t aid md).2).agents aid = some h2 ∧
        h2.status = .alive ∧ h2.last_heartbeat = t ∧
        missedBeats t h2.last_heartbeat st.heartbeat_interval = 0) := by
  refine ⟨?_, ?_, ?_⟩
  · intro hdead
    unfold HeartbeatManager.check_agents
    show dget? (st.agents.map (fun p => (p.1, sweepAgent st t p.2))) aid = _
    rw [dget?_map_values, hget]
    unfold Option.map sweepAgent sweepStatus
    rw [if_pos hdead]
  · intro hmiss hnotdead
    unfold HeartbeatManager.check_agents
    show dget? (st.agents.map (fun p => (p.1, sweepAgent st t p.2))) aid = _
    rw [dget?_map_values, hget]
    unfold Option.map sweepAgent sweepStatus
    rw [if_neg (not_le.mpr hnotdead), if_pos hmiss]
  · unfold HeartbeatManager.heartbeat
    rw [hget]
    exact ⟨_, dget?_dset_self _ _ _, rfl, rfl, missedBeats_same t _⟩

theorem missedBeats_90 : missedBeats 90 0 30 = 3 := by
  unfold missedBeats ratTrunc
  norm_num

theorem missedBeats_60 : missedBeats 60 0 30 = 2 := by
  unfold missedBeats ratTrunc
  norm_num

theorem claim_c5_witness :
    dget? (hbStW.check_agents 90).agents "a" = some
        { agent_id := "a", last_heartbeat := 0, heartbeat_count := 1,
          status := .dead, metadata := [] } ∧
      dget? (hbStW.check_agents 60).agents "a" = some
        { agent_id := "a", last_heartbeat := 0, heartbeat_count := 1,
          status := .missing, metadata := [] } ∧
      (∃ h2, dget? ((hbStW.heartbeat 90 "a" []).2).agents "a" = some h2 ∧
        h2.status = .alive ∧ h2.last_heartbeat = 90 ∧
        missedBeats 90 h2.last_heartbeat hbStW.heartbeat_interval = 0) :=
  ⟨(claim_c5 hbStW 90 "a"
      { agent_id := "a", last_heartbeat := 0, heartbeat_count := 1,
        status := .alive, metadata := [] } [] (by decide)).1
      (by rw [show hbStW.heartbeat_interval = 30 from rfl, missedBeats_90]; decide),
   ((claim_c5 hbStW 60 "a"
      { agent_id := "a", last_heartbeat := 0, heartbeat_count := 1,
        status := .alive, metadata := [] } [] (by decide)).2.1
      (by rw [show hbStW.heartbeat_interval = 30 from rfl, missedBeats_60]; decide)
      (by rw [show hbStW.heartbeat_interval = 30 from rfl, missedBeats_60]; decide)),
   (claim_c5 hbStW 90 "a"
      { agent_id := "a", last_heartbeat := 0, heartbeat_count := 1,
        status := .alive, metadata := [] } [] (by decide)).2.2⟩

/-! ## Claims about RateLimiter -/

theorem c4_step0 (N G : Nat) (t : ℚ) (a : String) (hN : 1 ≤ N) (hG : 1 ≤ G) :
    (RateLimiter.empty N G t).check t a = (.ok true, c4State N G t a 1) := by
  have hGq : (1 : ℚ) ≤ (G : ℚ) := by exact_mod_cast hG
  have hNq : (1 : ℚ) ≤ (N : ℚ) := by exact_mod_cast hN
  unfold RateLimiter.check RateLimiter.empty RateLimiter.get_agent_bucket
    TokenBucket.consume TokenBucket.refill c4State
  simp only [dget?, dset, sub_self, zero_mul, add_zero, min_self, Option.getD_none]
  rw [if_pos hGq, if_pos hNq]
  norm_num

theorem c4_stepj (N G : Nat) (t : ℚ) (a : String) (j : Nat) (hjN : j < N) (hjG : j < G) :
    (c4State N G t a j).check t a = (.ok true, c4State N G t a (j + 1)) := by
  have hGq : (1 : ℚ) ≤ (G : ℚ) - j := by
    have h1 : (j : ℚ) + 1 ≤ G := by exact_mod_cast hjG
    linarith
  have hNq : (1 : ℚ) ≤ (N : ℚ) - j := by
    have h1 : (j : ℚ) + 1 ≤ N := by exact_mod_cast hjN
    linarith
  have hj0 : (0 : ℚ) ≤ (j : ℚ) := by positivity
  have hGle : (G : ℚ) - j ≤ G := by linarith
  have hNle : (N : ℚ) - j ≤ N := by linarith
  unfold RateLimiter.check c4State RateLimiter.get_agent_bucket
    TokenBucket.consume TokenBucket.refill
  simp only [dget?, dset, sub_self, zero_mul, add_zero, Option.getD_none,
    min_eq_right hGle, min_eq_right hNle, if_pos rfl, eq_self_iff_true, if_true]
  rw [if_pos hGq, if_pos hNq]
  push_cast
  norm_num
  ring_nf
  exact ⟨trivial, trivial⟩

theorem c4_chain (N G : Nat) (t : ℚ) (a : String) :
    ∀ (k j : Nat), j + k ≤ N → N < G →
      (c4State N G t a j).checksOk t a k = (true, c4State N G t a (j + k)) := by
  intro k
  induction k with
  | zero => intro j _ _; rfl
  | succ n ih =>
    intro j hjk hNG
    have hjN : j < N := by omega
    have hjG : j < G := by omega
    have heq : j + 1 + n = j + (n + 1) := by omega
    rw [RateLimiter.checksOk]
    simp only [c4_stepj N G t a j hjN hjG, ih (j + 1) (by omega) hNG, heq,
      Bool.and_self]

theorem c4_final (N G : Nat) (t : ℚ) (a : String) (hNG : N < G) :
    isAgentLimitedWith ((c4State N G t a N).check t a).1 N = true ∧
      ((c4State N G t a N).check t a).2.global_bucket.tokens
        = (c4State N G t a N).global_bucket.tokens := by
  have hGq : (1 : ℚ) ≤ (G : ℚ) - N := by
    have h1 : (N : ℚ) + 1 ≤ G := by exact_mod_cast hNG
    linarith
  have hN0 : (0 : ℚ) ≤ (N : ℚ) := by positivity
  have hGle : (G : ℚ) - N ≤ G := by linarith
  unfold RateLimiter.check c4State RateLimiter.get_agent_bucket
    TokenBucket.consume TokenBucket.refill isAgentLimitedWith
  simp only [dget?, dset, sub_self, zero_mul, add_zero, Option.getD_none,
    min_eq_right hGle, min_eq_right hN0, if_pos rfl, eq_self_iff_true, if_true]
  rw [if_pos hGq, if_neg (show ¬(1 : ℚ) ≤ 0 by norm_num)]
  norm_num

theorem c4_final0 (G : Nat) (t : ℚ) (a : String) (hG : 1 ≤ G) :
    isAgentLimitedWith ((RateLimiter.empty 0 G t).check t a).1 0 = true ∧
      ((RateLimiter.empty 0 G t).check t a).2.global_bucket.tokens
        = (RateLimiter.empty 0 G t).global_bucket.tokens := by
  have hGq : (1 : ℚ) ≤ (G : ℚ) := by exact_mod_cast hG
  unfold RateLimiter.check RateLimiter.empty RateLimiter.get_agent_bucket
    TokenBucket.consume TokenBucket.refill isAgentLimitedWith
  simp only [dget?, dset, sub_self, zero_mul, add_zero, Option.getD_none, min_self,
    Nat.cast_zero, eq_self_iff_true, if_true]
  rw [if_pos hGq, if_neg (show ¬(1 : ℚ) ≤ 0 by norm_num)]
  norm_num

/-- C4 (amended): for a fresh `RateLimiter` with per-agent default `N`
strictly below the global limit `G` and no refill time elapsing, exactly
`N` consecutive `check` calls for one agent succeed; the `(N+1)`-th raises
`RateLimitExceeded` tagged with the per-agent limit `N`; and because the
per-agent failure refunds the global token, that failing call leaves the
global bucket's token count exactly unchanged.  (With `N = G` the
`(N+1)`-th call is instead rejected by the global bucket, tagged global —
see the counterexample.) -/
theorem claim_c4 (N G : Nat) (a : String) (t : ℚ) (hNG : N < G) :
    ((RateLimiter.empty N G t).checksOk t a N).1 = true ∧
      isAgentLimitedWith ((((RateLimiter.empty N G t).checksOk t a N).2).check t a).1 N
        = true ∧
      ((((RateLimiter.empty N G t).checksOk t a N).2).check t a).2.global_bucket.tokens
        = (((RateLimiter.empty N G t).checksOk t a N).2).global_bucket.tokens := by
  cases N with
  | zero =>
    exact ⟨rfl, (c4_final0 G t a (by omega)).1, (c4_final0 G t a (by omega)).2⟩
  | succ n =>
    have h1n : 1 + n = n + 1 := by omega
    have hrun : (RateLimiter.empty (n + 1) G t).checksOk t a (n + 1)
        = (true, c4State (n + 1) G t a (n + 1)) := by
      rw [RateLimiter.checksOk]
      simp only [c4_step0 (n + 1) G t a (by omega) (by omega),
        c4_chain (n + 1) G t a n 1 (by omega) hNG, h1n, Bool.and_self]
    rw [hrun]
    exact ⟨rfl, (c4_final (n + 1) G t a hNG).1, (c4_final (n + 1) G t a hNG).2⟩

theorem claim_c4_witness :
    ((RateLimiter.empty 2 5 0).checksOk 0 "a" 2).1 = true ∧
      isAgentLimitedWith ((((RateLimiter.empty 2 5 0).checksOk 0 "a" 2).2).check 0 "a").1 2
        = true ∧
      ((((RateLimiter.empty 2 5 0).checksOk 0 "a" 2).2).check 0 "a").2.global_bucket.tokens
        = (((RateLimiter.empty 2 5 0).checksOk 0 "a" 2).2).global_bucket.tokens :=
  claim_c4 2 5 "a" 0 (by decide)

/-- C4 counterexample: with per-agent limit `N = 1` equal to the global
limit `G = 1` (so `N` does not exceed `G`, as the claim allows), the first
check succeeds but the second is rejected by the *global* bucket — the
error is tagged with the global limit, not the per-agent limit. -/
theorem claim_c4_counterexample :
    ((RateLimiter.empty 1 1 0).checksOk 0 "a" 1).1 = true ∧
      isAgentLimitedWith ((((RateLimiter.empty 1 1 0).checksOk 0 "a" 1).2).check 0 "a").1 1
        = false ∧
      ((((RateLimiter.empty 1 1 0).checksOk 0 "a" 1).2).check 0 "a").1
        = .error (.globalLimited "a" 1 60) := by
  have hrun : (RateLimiter.empty 1 1 0).checksOk 0 "a" 1
      = (true, c4State 1 1 0 "a" 1) := by
    rw [RateLimiter.checksOk]
    simp only [c4_step0 1 1 0 "a" (by omega) (by omega)]
    rfl
  rw [hrun]
  have hchk : ((c4State 1 1 0 "a" 1).check 0 "a")
      = (.error (.globalLimited "a" 1 60), c4State 1 1 0 "a" 1) := by
    unfold RateLimiter.check c4State TokenBucket.consume TokenBucket.refill
      TokenBucket.get_wait_time
    norm_num
  rw [hchk]
  exact ⟨rfl, rfl, rfl⟩

/-! ## Claims about per-agent message sequencing -/

theorem c1_commit (a c ch fa : String) (msgsD : List (String × List Message))
    (seqD : List ((String × String) × Nat)) (m : Message)
    (hfa : m.from_agent = fa)
    (hseq : m.sequence = (dget? seqD (fa, ch)).getD 0)
    (hinv : (((dget? msgsD c).getD []).filter (fun x => x.from_agent == a)).map
        Message.sequence = List.range ((dget? seqD (a, c)).getD 0)) :
    (((dget? (dset msgsD ch ((dget? msgsD ch).getD [] ++ [m])) c).getD []).filter
        (fun x => x.from_agent == a)).map Message.sequence
      = List.range ((dget? (dset seqD (fa, ch)
          ((dget? seqD (fa, ch)).getD 0 + 1)) (a, c)).getD 0) := by
  by_cases hch : ch = c
  · subst hch
    rw [dget?_dset_self]
    by_cases hfa2 : fa = a
    · subst hfa2
      rw [dget?_dset_self]
      simp only [Option.getD_some, List.filter_append, List.map_append]
      rw [hinv]
      have hm : (List.filter (fun x => x.from_agent == fa) [m]) = [m] := by
        simp [List.filter, hfa]
      rw [hm]
      simp only [List.map_cons, List.map_nil]
      rw [hseq, List.range_succ]
    · have hkey : (fa, ch) ≠ (a, ch) := fun h => hfa2 (congrArg Prod.fst h)
      rw [dget?_dset_of_ne _ _ _ _ hkey]
      simp only [Option.getD_some, List.filter_append, List.map_append]
      have hbeq : (fa == a) = false := beq_eq_false_iff_ne.mpr hfa2
      have hm : (List.filter (fun x => x.from_agent == a) [m]) = [] := by
        simp [List.filter, hfa, hbeq]
      rw [hm, hinv]
      simp
  · have hkey : (fa, ch) ≠ (a, c) := fun h => hch (congrArg Prod.snd h)
    rw [dget?_dset_of_ne _ _ _ _ hch, dget?_dset_of_ne _ _ _ _ hkey]
    exact hinv

theorem c1_step (a c : String) (st : ChannelStore) (call : AppendCall)
    (hv : call.from_agent = a → call.channel = c → contentValid call.type call.content = true)
    (hinv : agentSeqs st c a = List.range ((dget? st.agent_sequences (a, c)).getD 0)) :
    agentSeqs ((st.append 0 call.channel call.from_agent call.type call.content [] none).2) c a
      = List.range ((dget? ((st.append 0 call.channel call.from_agent call.type
          call.content [] none).2).agent_sequences (a, c)).getD 0) := by
  rcases call with ⟨ch, fa, mt, content⟩
  dsimp only at hv ⊢
  unfold agentSeqs ChannelStore.msgs at hinv ⊢
  unfold ChannelStore.append
  by_cases hcap : ((dget? st.messages ch).getD []).length ≥ st.max_messages
  · rw [ChannelStore.msgs, if_pos hcap]
    exact hinv
  · rw [ChannelStore.msgs, if_neg hcap]
    rcases content with s | fields
    · dsimp only
      rcases hchan : dget? st.channels ch with _ | chn
      · simp only [hchan]
        exact c1_commit a c ch fa st.messages st.agent_sequences _ rfl rfl hinv
      · simp only [hchan]
        exact c1_commit a c ch fa st.messages st.agent_sequences _ rfl rfl hinv
    · dsimp only
      by_cases hvb : (MessageSchema.validate_message mt fields).1 = true
      · rw [if_pos hvb]
        rcases hchan : dget? st.channels ch with _ | chn
        · simp only [hchan]
          exact c1_commit a c ch fa st.messages st.agent_sequences _ rfl rfl hinv
        · simp only [hchan]
          exact c1_commit a c ch fa st.messages st.agent_sequences _ rfl rfl hinv
      · rw [if_neg hvb]
        dsimp only
        by_cases hch : ch = c
        · subst hch
          by_cases hfa : fa = a
          · exact absurd (hv hfa rfl) (by simp [contentValid, hvb])
          · have hkey : (fa, ch) ≠ (a, ch) := fun h => hfa (congrArg Prod.fst h)
            rw [dget?_dset_of_ne _ _ _ _ hkey]
            exact hinv
        · have hkey : (fa, ch) ≠ (a, c) := fun h => hch (congrArg Prod.snd h)
          rw [dget?_dset_of_ne _ _ _ _ hkey]
          exact hinv

theorem c1_run (a c : String) (calls : List AppendCall) :
    ∀ st : ChannelStore,
      (∀ call ∈ calls, call.from_agent = a → call.channel = c →
        contentValid call.type call.content = true) →
      agentSeqs st c a = List.range ((dget? st.agent_sequences (a, c)).getD 0) →
      agentSeqs (st.runAppends calls) c a
        = List.range ((dget? (st.runAppends calls).agent_sequences (a, c)).getD 0) := by
  induction calls with
  | nil => intro st _ hinv; exact hinv
  | cons x rest ih =>
    intro st hv hinv
    rw [ChannelStore.runAppends, List.foldl_cons]
    exact ih _ (fun cl hcl => hv cl (List.mem_cons_of_mem x hcl))
      (c1_step a c st x (hv x (List.mem_cons_self x rest)) hinv)

/-- C1 (amended): starting from a fresh store, across any sequence of
`append` calls in which no call by agent `a` to channel `c` fails schema
validation (capacity-raising calls are allowed, as are arbitrary —
even schema-invalid — appends by other agents or to other channels), the
messages successfully appended by `a` to `c` carry sequence numbers exactly
`0, 1, 2, …` in call order.  A schema-invalid append consumes a sequence
number before raising, so without that restriction a gap appears — see the
counterexample. -/
theorem claim_c1 (M : Nat) (calls : List AppendCall) (a c : String)
    (hvalid : ∀ call ∈ calls, call.from_agent = a → call.channel = c →
      contentValid call.type call.content = true) :
    agentSeqs ((ChannelStore.empty M).runAppends calls) c a
      = List.range (agentSeqs ((ChannelStore.empty M).runAppends calls) c a).length := by
  have h := c1_run a c calls (ChannelStore.empty M) hvalid rfl
  rw [h, List.length_range]

theorem claim_c1_witness :
    (∀ call ∈ okCalls, call.from_agent = "a" → call.channel = "c" →
      contentValid call.type call.content = true) ∧
      agentSeqs ((ChannelStore.empty 10).runAppends okCalls) "c" "a" = [0, 1, 2] ∧
      agentSeqs ((ChannelStore.empty 10).runAppends okCalls) "c" "a"
        = List.range (agentSeqs ((ChannelStore.empty 10).runAppends okCalls) "c" "a").length :=
  ⟨by decide, by decide, claim_c1 10 okCalls "a" "c" (by decide)⟩

/-- C1 counterexample: in the trace `gapCalls` every raising append is by
agent `"a"` to channel `"c"` itself (a schema-invalid `task_assign`), and
the successfully appended messages carry sequences `0, 2` — not the gapless
`0, 1` the claim asserts for call order regardless of raising appends. -/
theorem claim_c1_counterexample :
    agentSeqs ((ChannelStore.empty 10).runAppends gapCalls) "c" "a" = [0, 2] ∧
      agentSeqs ((ChannelStore.empty 10).runAppends gapCalls) "c" "a"
        ≠ List.range
            (agentSeqs ((ChannelStore.empty 10).runAppends gapCalls) "c" "a").length :=
  ⟨by decide, by decide⟩

/-! ## Claims about AuthManager revocation -/

theorem c8_runRegisters_append (h : String → String) (st : AuthManager)
    (x y : List (String × String)) :
    AuthManager.runRegisters h st (x ++ y)
      = AuthManager.runRegisters h (AuthManager.runRegisters h st x) y := by
  unfold AuthManager.runRegisters
  exact List.foldl_append _ _ x y

theorem c8_pre_inv (h : String → String) (aid : String) (l1 : List (String × String))
    (hnotin : aid ∉ l1.map Prod.fst) :
    ∀ st : AuthManager,
      (∀ hk, dget? st.api_key_to_agent hk ≠ some aid) →
      NodupKeys st.api_key_to_agent →
      (∀ hk, dget? (AuthManager.runRegisters h st l1).api_key_to_agent hk ≠ some aid) ∧
        NodupKeys (AuthManager.runRegisters h st l1).api_key_to_agent := by
  induction l1 with
  | nil => intro st hB hD; exact ⟨hB, hD⟩
  | cons p rest ih =>
    intro st hB hD
    have hpa : p.1 ≠ aid := by
      intro hcontra
      exact hnotin (by simp [hcontra])
    have hrest : aid ∉ rest.map Prod.fst := by
      intro hcontra
      exact hnotin (by simp [hcontra])
    rw [AuthManager.runRegisters, List.foldl_cons]
    refine ih hrest _ ?_ ?_
    · intro hk hhk
      unfold AuthManager.register_agent at hhk
      dsimp only at hhk
      by_cases hkk : h p.2 = hk
      · subst hkk
        rw [dget?_dset_self] at hhk
        exact hpa (Option.some.inj hhk)
      · rw [dget?_dset_of_ne _ _ _ _ hkk] at hhk
        exact hB hk hhk
    · unfold AuthManager.register_agent
      exact nodupKeys_dset _ _ _ hD

theorem c8_run_inv (h : String → String) (aid k : String) (l2 : List (String × String))
    (hnotin : aid ∉ l2.map Prod.fst) :
    ∀ st : AuthManager,
      (∃ ag, dget? st.agents aid = some ag ∧ ag.api_key_hash = h k) →
      (∀ hk, dget? st.api_key_to_agent hk = some aid → hk = h k) →
      NodupKeys st.api_key_to_agent →
      (∃ ag, dget? (AuthManager.runRegisters h st l2).agents aid = some ag ∧
          ag.api_key_hash = h k) ∧
        (∀ hk, dget? (AuthManager.runRegisters h st l2).api_key_to_agent hk = some aid →
          hk = h k) ∧
        NodupKeys (AuthManager.runRegisters h st l2).api_key_to_agent := by
  induction l2 with
  | nil => intro st hA hB hD; exact ⟨hA, hB, hD⟩
  | cons p rest ih =>
    intro st hA hB hD
    have hpa : p.1 ≠ aid := by
      intro hcontra
      exact hnotin (by simp [hcontra])
    have hrest : aid ∉ rest.map Prod.fst := by
      intro hcontra
      exact hnotin (by simp [hcontra])
    rw [AuthManager.runRegisters, List.foldl_cons]
    refine ih hrest _ ?_ ?_ ?_
    · rcases hA with ⟨ag, hag, hhash⟩
      refine ⟨ag, ?_, hhash⟩
      unfold AuthManager.register_agent
      dsimp only
      rw [dget?_dset_of_ne _ _ _ _ hpa]
      exact hag
    · intro hk hhk
      unfold AuthManager.register_agent at hhk
      dsimp only at hhk
      by_cases hkk : h p.2 = hk
      · subst hkk
        rw [dget?_dset_self] at hhk
        exact absurd (Option.some.inj hhk) hpa
      · rw [dget?_dset_of_ne _ _ _ _ hkk] at hhk
        exact hB hk hhk
    · unfold AuthManager.register_agent
      exact nodupKeys_dset _ _ _ hD

/-- C8 (amended): for every prior sequence of `register_agent` calls with
pairwise-distinct agent ids, a successful `revoke_agent(agentId)` removes
both the agent record and the reverse mapping of its key hash, and no API
key issued for `agentId` resolves to `agentId` through `get_agent_from_key`
afterwards.  (When the same id is re-registered with a new key, the old
key's reverse mapping survives revocation and still resolves — see the
counterexample.) -/
theorem claim_c8 (h : String → String) (regs : List (String × String))
    (aid k : String) (st' : AuthManager)
    (hnd : (regs.map Prod.fst).Nodup) (hmem : (aid, k) ∈ regs)
    (hrev : (AuthManager.runRegisters h AuthManager.empty regs).revoke_agent aid
      = (.revoked, st')) :
    AuthManager.get_agent_from_key h st' k ≠ some aid := by
  obtain ⟨l1, l2, rfl⟩ := List.append_of_mem hmem
  have h1 : aid ∉ l1.map Prod.fst := by
    rw [List.map_append, List.map_cons] at hnd
    rcases List.nodup_append.mp hnd with ⟨_, _, hdisj⟩
    intro hcontra
    exact hdisj hcontra (by simp)
  have h2 : aid ∉ l2.map Prod.fst := by
    rw [List.map_append, List.map_cons] at hnd
    rcases List.nodup_append.mp hnd with ⟨_, hcons, _⟩
    rw [List.nodup_cons] at hcons
    exact hcons.1
  rw [c8_runRegisters_append, AuthManager.runRegisters, List.foldl_cons] at hrev
  set stPre := AuthManager.runRegisters h AuthManager.empty l1 with hstPre
  have hpre := c8_pre_inv h aid l1 h1 AuthManager.empty
    (fun hk => by rw [AuthManager.empty]; exact fun hc => by cases hc)
    (by rw [AuthManager.empty]; exact List.nodup_nil)
  rw [← hstPre] at hpre
  have hmid := c8_run_inv h aid k l2 h2
    (AuthManager.register_agent h stPre 0 aid k ["*"] ["read", "write", "lock"] 100).2
    (by
      unfold AuthManager.register_agent
      dsimp only
      refine ⟨_, dget?_dset_self _ _ _, ?_⟩
      rfl)
    (by
      intro hk hhk
      unfold AuthManager.register_agent at hhk
      dsimp only at hhk
      by_cases hkk : h k = hk
      · exact hkk.symm
      · rw [dget?_dset_of_ne _ _ _ _ hkk] at hhk
        exact absurd hhk (hpre.1 hk))
    (by
      unfold AuthManager.register_agent
      exact nodupKeys_dset _ _ _ hpre.2)
  set st0 := AuthManager.runRegisters h
    (AuthManager.register_agent h stPre 0 aid k ["*"] ["read", "write", "lock"] 100).2 l2
    with hst0
  replace hrev : st0.revoke_agent aid = (.revoked, st') := by
    rw [hst0]
    unfold AuthManager.runRegisters
    dsimp only at hrev ⊢
    exact hrev
  rcases hmid with ⟨⟨ag, hag, hhash⟩, hB, hD⟩
  unfold AuthManager.revoke_agent at hrev
  rw [hag] at hrev
  dsimp only at hrev
  by_cases hc : dcontains st0.api_key_to_agent ag.api_key_hash = true
  · rw [if_pos hc] at hrev
    have hst' : st' = AuthManager.mk (dremove st0.agents aid)
        (dremove st0.api_key_to_agent ag.api_key_hash) := by
      cases hrev
      rfl
    subst hst'
    unfold AuthManager.get_agent_from_key
    dsimp only
    rw [hhash]
    rw [dget?_dremove_self _ _ hD]
    exact fun hc2 => by cases hc2
  · rw [if_neg hc] at hrev
    cases hrev

theorem claim_c8_witness :
    AuthManager.get_agent_from_key (fun s => s) authStW "k1" ≠ some "a" :=
  claim_c8 (fun s => s) [("a", "k1"), ("b", "k2")] "a" "k1" authStW
    (by decide) (by decide) (by decide)

/-- C8 counterexample: register agent `"a"` with key `"k1"`, re-register
the same id with key `"k2"`, then revoke.  The revoke succeeds, yet the
first key still resolves to `"a"` through `get_agent_from_key` — the
reverse mapping of the overwritten registration was never removed.  (The
hash function is instantiated with the identity as a stand-in for
SHA-256.) -/
theorem claim_c8_counterexample :
    ((AuthManager.runRegisters (fun s => s) AuthManager.empty
        [("a", "k1"), ("a", "k2")]).revoke_agent "a").1 = .revoked ∧
      AuthManager.get_agent_from_key (fun s => s)
        ((AuthManager.runRegisters (fun s => s) AuthManager.empty
          [("a", "k1"), ("a", "k2")]).revoke_agent "a").2 "k1" = some "a" :=
  ⟨by decide, by decide⟩

/-! ## Canonical-JSON serialization: injectivity via a decoding roundtrip -/

theorem hexVal_hexDigitChar : ∀ d < 16, hexVal (hexDigitChar d) = d := by decide

theorem hex4_comb (n : Nat) (hn : n < 65536) :
    ((hexVal (hexDigitChar (n / 4096 % 16)) * 16 + hexVal (hexDigitChar (n / 256 % 16))) * 16
        + hexVal (hexDigitChar (n / 16 % 16))) * 16 + hexVal (hexDigitChar (n % 16)) = n := by
  rw [hexVal_hexDigitChar _ (by omega), hexVal_hexDigitChar _ (by omega),
    hexVal_hexDigitChar _ (by omega), hexVal_hexDigitChar _ (by omega)]
  omega

theorem char_valid_nat (c : Char) :
    c.toNat < 55296 ∨ (57343 < c.toNat ∧ c.toNat < 1114112) := by
  have hv := c.valid
  unfold UInt32.isValidChar Nat.isValidChar at hv
  exact hv

theorem escChar_unescStep (c : Char) (r : List Char) :
    unescStep (escChar c ++ r) = some (c, r) := by
  unfold escChar
  by_cases h1 : c = '"'
  · subst h1
    rw [if_pos rfl]
    rfl
  · rw [if_neg h1]
    by_cases h2 : c = '\\'
    · subst h2
      rw [if_pos rfl]
      rfl
    · rw [if_neg h2]
      by_cases h3 : c = '\n'
      · subst h3
        rw [if_pos rfl]
        rfl
      · rw [if_neg h3]
        by_cases h4 : c = '\r'
        · subst h4
          rw [if_pos rfl]
          rfl
        · rw [if_neg h4]
          by_cases h5 : c = '\t'
          · subst h5
            rw [if_pos rfl]
            rfl
          · rw [if_neg h5]
            by_cases h6 : c.toNat = 8
            · rw [if_pos h6]
              have hc : Char.ofNat 8 = c := h6 ▸ Char.ofNat_toNat c
              rw [← hc]
              rfl
            · rw [if_neg h6]
              by_cases h7 : c.toNat = 12
              · rw [if_pos h7]
                have hc : Char.ofNat 12 = c := h7 ▸ Char.ofNat_toNat c
                rw [← hc]
                rfl
              · rw [if_neg h7]
                by_cases h8 : c.toNat < 32 ∨ 126 < c.toNat
                · rw [if_pos h8]
                  by_cases h9 : c.toNat < 65536
                  · rw [if_pos h9]
                    have hns : ¬(55296 ≤ c.toNat ∧ c.toNat ≤ 56319) := by
                      rcases char_valid_nat c with h | h
                      · omega
                      · omega
                    simp only [List.cons_append]
                    rw [unescStep.eq_def]
                    dsimp only
                    rw [if_pos rfl]
                    dsimp only [hex4, List.cons_append]
                    rw [if_neg (show ¬('u' : Char) = '"' by decide),
                      if_neg (show ¬('u' : Char) = '\\' by decide),
                      if_neg (show ¬('u' : Char) = 'n' by decide),
                      if_neg (show ¬('u' : Char) = 'r' by decide),
                      if_neg (show ¬('u' : Char) = 't' by decide),
                      if_neg (show ¬('u' : Char) = 'b' by decide),
                      if_neg (show ¬('u' : Char) = 'f' by decide),
                      if_pos rfl]
                    rw [hex4_comb c.toNat h9, if_neg hns, Char.ofNat_toNat,
                      List.nil_append]
                  · rw [if_neg h9]
                    have hhi : c.toNat - 65536 < 1048576 := by
                      rcases char_valid_nat c with h | h
                      · omega
                      · omega
                    have hq : 55296 + (c.toNat - 65536) / 1024 < 65536 := by omega
                    have hrm : 56320 + (c.toNat - 65536) % 1024 < 65536 := by
                      have := Nat.mod_lt (c.toNat - 65536) (show 0 < 1024 by omega)
                      omega
                    have hsur : 55296 ≤ 55296 + (c.toNat - 65536) / 1024 ∧
                        55296 + (c.toNat - 65536) / 1024 ≤ 56319 := by omega
                    dsimp only [hex4, List.cons_append, List.append_assoc]
                    rw [unescStep.eq_def]
                    dsimp only
                    rw [if_pos rfl]
                    rw [if_neg (show ¬('u' : Char) = '"' by decide),
                      if_neg (show ¬('u' : Char) = '\\' by decide),
                      if_neg (show ¬('u' : Char) = 'n' by decide),
                      if_neg (show ¬('u' : Char) = 'r' by decide),
                      if_neg (show ¬('u' : Char) = 't' by decide),
                      if_neg (show ¬('u' : Char) = 'b' by decide),
                      if_neg (show ¬('u' : Char) = 'f' by decide),
                      if_pos rfl]
                    rw [hex4_comb _ hq, if_pos hsur]
                    simp only [List.nil_append, List.cons_append]
                    rw [if_pos (show True ∧ True from ⟨trivial, trivial⟩)]
                    rw [hex4_comb _ hrm]
                    have hval : 65536 + (55296 + (c.toNat - 65536) / 1024 - 55296) * 1024 +
                        (56320 + (c.toNat - 65536) % 1024 - 56320) = c.toNat := by
                      have := Nat.div_add_mod (c.toNat - 65536) 1024
                      omega
                    rw [hval, Char.ofNat_toNat]
                · rw [if_neg h8]
                  show unescStep (c :: r) = _
                  rw [unescStep.eq_def]
                  dsimp only
                  rw [if_neg h2]

theorem escChar_head (c : Char) : ∃ d t, escChar c = d :: t ∧ d ≠ '"' := by
  unfold escChar
  split_ifs with h1 h2 h3 h4 h5 h6 h7 h8 h9 <;>
    first
      | exact ⟨_, _, rfl, by decide⟩
      | exact ⟨c, [], rfl, h1⟩

theorem parseStrBody_escList (s : List Char) : ∀ (fuel : Nat) (r : List Char),
    s.length < fuel → parseStrBody fuel (escList s ++ '"' :: r) = some (s, r) := by
  induction s with
  | nil =>
    intro fuel r hf
    cases fuel with
    | zero => omega
    | succ f =>
      show parseStrBody (f + 1) ('"' :: r) = _
      rw [parseStrBody.eq_def]
      dsimp only
      rw [if_pos rfl]
  | cons c s2 ih =>
    intro fuel r hf
    cases fuel with
    | zero => omega
    | succ f =>
      obtain ⟨d, t, hesc, hd⟩ := escChar_head c
      show parseStrBody (f + 1) (escList (c :: s2) ++ '"' :: r) = _
      rw [escList, List.append_assoc, hesc]
      simp only [List.cons_append]
      rw [parseStrBody.eq_def]
      dsimp only
      rw [if_neg hd]
      have hback : d :: (t ++ (escList s2 ++ '"' :: r))
          = escChar c ++ (escList s2 ++ '"' :: r) := by
        rw [hesc, List.cons_append]
      rw [hback, escChar_unescStep]
      dsimp only
      rw [ih f r (by simp at hf; omega)]

theorem isDigit_digitChar : ∀ d < 10, isDigit (digitChar d) = true := by decide

theorem digitChar_val : ∀ d < 10, (digitChar d).toNat - 48 = d := by decide

theorem natDec_length_pos (n : Nat) : 0 < (natDec n).length := by
  rw [natDec]
  split
  · simp
  · simp

theorem natDec_digits (n : Nat) : ∀ c ∈ natDec n, isDigit c = true := by
  induction n using Nat.strong_induction_on with
  | _ n ih =>
    rw [natDec]
    split
    · intro c hc
      rcases List.mem_singleton.mp hc with rfl
      exact isDigit_digitChar n (by omega)
    · intro c hc
      rcases List.mem_append.mp hc with h | h
      · exact ih (n / 10) (Nat.div_lt_self (by omega) (by omega)) c h
      · rcases List.mem_singleton.mp h with rfl
        exact isDigit_digitChar (n % 10) (by omega)

theorem parseDigits_spec (ds : List Char) (hds : ∀ c ∈ ds, isDigit c = true) :
    ∀ (fuel : Nat) (acc : Nat) (r : List Char), ds.length ≤ fuel →
      digitStart r = false →
      parseDigits fuel (ds ++ r) acc
        = (ds.foldl (fun a c => a * 10 + (c.toNat - 48)) acc, r) := by
  induction ds with
  | nil =>
    intro fuel acc r _ hr
    cases fuel with
    | zero => rfl
    | succ f =>
      cases r with
      | nil => rfl
      | cons c r2 =>
        rw [List.nil_append, parseDigits.eq_def]
        dsimp only
        rw [if_neg (by rw [digitStart] at hr; simp [hr]), List.foldl_nil]
  | cons d ds2 ih =>
    intro fuel acc r hf hr
    cases fuel with
    | zero => simp at hf
    | succ f =>
      rw [List.cons_append, parseDigits.eq_def]
      dsimp only
      rw [if_pos (hds d (by simp))]
      rw [ih (fun c hc => hds c (by simp [hc])) f _ r (by simp at hf; omega) hr]
      rw [List.foldl_cons]

theorem natDec_foldl (n : Nat) : ∀ acc : Nat,
    (natDec n).foldl (fun a c => a * 10 + (c.toNat - 48)) acc
      = acc * 10 ^ (natDec n).length + n := by
  induction n using Nat.strong_induction_on with
  | _ n ih =>
    intro acc
    rw [natDec]
    split
    · rw [List.foldl_cons, List.foldl_nil]
      simp [digitChar_val n (by omega)]
    · rw [List.foldl_append, ih (n / 10) (Nat.div_lt_self (by omega) (by omega)) acc,
        List.foldl_cons, List.foldl_nil, List.length_append]
      rw [digitChar_val (n % 10) (by omega)]
      rw [List.length_singleton, pow_succ]
      have := Nat.div_add_mod n 10
      ring_nf
      omega

theorem escList_length_ge (s : List Char) : s.length ≤ (escList s).length := by
  induction s with
  | nil => simp [escList]
  | cons c s2 ih =>
    obtain ⟨d, t, hesc, _⟩ := escChar_head c
    rw [escList, List.length_append, List.length_cons, hesc, List.length_cons]
    omega

theorem natDec_head (n : Nat) : ∃ d t, natDec n = d :: t ∧ isDigit d = true := by
  induction n using Nat.strong_induction_on with
  | _ n ih =>
    rw [natDec]
    split
    · exact ⟨digitChar n, [], rfl, isDigit_digitChar n (by omega)⟩
    · obtain ⟨d, t, hnd, hd⟩ := ih (n / 10) (Nat.div_lt_self (by omega) (by omega))
      exact ⟨d, t ++ [digitChar (n % 10)], by rw [hnd, List.cons_append], hd⟩

theorem isDigit_ne (d x : Char) (hd : isDigit d = true) (hx : isDigit x = false) :
    d ≠ x := by
  intro h
  rw [h, hx] at hd
  cases hd

theorem parseValue_ser (v : JValue) : ∀ (fuel : Nat) (r : List Char),
    (serValue v).length < fuel → digitStart r = false →
    parseValue fuel (serValue v ++ r) = some (v, r) := by
  cases v with
  | jstr s =>
    intro fuel r hf hr
    have hlen : s.data.length < fuel := by
      have h1 := escList_length_ge s.data
      unfold serValue serStr at hf
      simp at hf
      omega
    show parseValue fuel ((('"' : Char) :: (escList s.data ++ ['"'])) ++ r) = _
    simp only [List.cons_append, List.append_assoc, List.singleton_append,
      List.nil_append]
    rw [parseValue.eq_def]
    dsimp only
    rw [if_pos rfl]
    rw [parseStrBody_escList s.data fuel r hlen]
  | jint i =>
    intro fuel r hf hr
    by_cases hi : i < 0
    · have hser : serValue (JValue.jint i) = '-' :: natDec i.natAbs := by
        unfold serValue intDec
        dsimp only
        rw [if_pos hi]
      rw [hser] at hf ⊢
      obtain ⟨d, t, hnd, hd⟩ := natDec_head i.natAbs
      simp only [List.cons_append]
      rw [parseValue.eq_def]
      dsimp only
      rw [if_neg (by decide), if_pos rfl]
      have hds : digitStart (natDec i.natAbs ++ r) = true := by
        rw [hnd, List.cons_append, digitStart]
        exact hd
      rw [hds]
      rw [parseDigits_spec (natDec i.natAbs) (natDec_digits _) fuel 0 r
        (by simp at hf; omega) hr]
      rw [natDec_foldl]
      simp only [Nat.zero_mul, Nat.zero_add]
      have : -((i.natAbs : ℤ)) = i := by omega
      rw [this]
      simp
    · have hser : serValue (JValue.jint i) = natDec i.natAbs := by
        unfold serValue intDec
        dsimp only
        rw [if_neg hi]
      rw [hser] at hf ⊢
      obtain ⟨d, t, hnd, hd⟩ := natDec_head i.natAbs
      rw [hnd]
      simp only [List.cons_append]
      rw [parseValue.eq_def]
      dsimp only
      rw [if_neg (isDigit_ne d '"' hd (by decide)),
        if_neg (isDigit_ne d '-' hd (by decide)), if_pos hd]
      have hback : d :: (t ++ r) = natDec i.natAbs ++ r := by
        rw [hnd, List.cons_append]
      rw [hback]
      rw [parseDigits_spec (natDec i.natAbs) (natDec_digits _) fuel 0 r
        (le_of_lt hf) hr]
      rw [natDec_foldl]
      simp only [Nat.zero_mul, Nat.zero_add]
      have : ((i.natAbs : ℤ)) = i := Int.natAbs_of_nonneg (not_lt.mp hi)
      rw [this]
  | jbool b =>
    intro fuel r hf hr
    cases b
    · rfl
    · rfl
  | jnull =>
    intro fuel r hf hr
    rfl

theorem parseEntry_ser (e : String × JValue) : ∀ (fuel : Nat) (r : List Char),
    (serEntry e).length < fuel → digitStart r = false →
    parseEntry fuel (serEntry e ++ r) = some (e, r) := by
  intro fuel r hf hr
  have hklen : e.1.data.length < fuel := by
    have h1 := escList_length_ge e.1.data
    unfold serEntry serStr at hf
    simp at hf
    omega
  have hvlen : (serValue e.2).length < fuel := by
    unfold serEntry serStr at hf
    simp at hf
    omega
  show parseEntry fuel ((serStr e.1 ++ ':' :: serValue e.2) ++ r) = _
  unfold serStr
  simp only [List.cons_append, List.append_assoc, List.singleton_append]
  rw [parseEntry.eq_def]
  dsimp only
  rw [if_pos rfl]
  simp only [List.nil_append]
  rw [parseStrBody_escList e.1.data fuel (':' :: (serValue e.2 ++ r)) hklen]
  dsimp only
  rw [if_pos rfl]
  rw [parseValue_ser e.2 fuel r hvlen hr]

theorem parseEntries_ser : ∀ (l : List (String × JValue)), l ≠ [] →
    ∀ (sfuel efuel : Nat) (r : List Char),
      (serEntriesList l).length < sfuel → l.length < efuel → digitStart r = false →
      parseEntries sfuel efuel (serEntriesList l ++ '}' :: r) = some (l, r) := by
  intro l
  induction l with
  | nil => intro h; cases h rfl
  | cons e t ih =>
    intro _ sfuel efuel r hs he hr
    cases efuel with
    | zero => omega
    | succ ef =>
      cases t with
      | nil =>
        show parseEntries sfuel (ef + 1) (serEntry e ++ '}' :: r) = _
        rw [parseEntries.eq_def]
        dsimp only
        rw [parseEntry_ser e sfuel ('}' :: r) (by rw [serEntriesList] at hs; exact hs) rfl]
        dsimp only
        rw [if_neg (show ¬('}' : Char) = ',' by decide), if_pos rfl]
      | cons f t2 =>
        have hs2 : (serEntry e).length < sfuel := by
          rw [serEntriesList, List.length_append, List.length_cons] at hs
          omega
        have hs3 : (serEntriesList (f :: t2)).length < sfuel := by
          rw [serEntriesList, List.length_append, List.length_cons] at hs
          omega
        show parseEntries sfuel (ef + 1)
            ((serEntry e ++ ',' :: serEntriesList (f :: t2)) ++ '}' :: r) = _
        simp only [List.append_assoc, List.cons_append]
        rw [parseEntries.eq_def]
        dsimp only
        rw [parseEntry_ser e sfuel (',' :: (serEntriesList (f :: t2) ++ '}' :: r)) hs2 rfl]
        dsimp only
        rw [if_pos rfl]
        rw [ih (by simp) sfuel ef r hs3 (by simp at he ⊢; omega) hr]

theorem serEntriesList_cons_eq (e : String × JValue) (t : List (String × JValue)) :
    ∃ tl, serEntriesList (e :: t) = '"' :: tl := by
  cases t
  · exact ⟨_, rfl⟩
  · exact ⟨_, rfl⟩

theorem parseObj_ser (l : JObj) : ∀ (sfuel efuel : Nat) (r : List Char),
    (serEntriesList l).length < sfuel → l.length < efuel → digitStart r = false →
    parseObj sfuel efuel (serObj l ++ r) = some (l, r) := by
  intro sfuel efuel r hs he hr
  cases l with
  | nil => rfl
  | cons e t =>
    obtain ⟨tl, htl⟩ := serEntriesList_cons_eq e t
    show parseObj sfuel efuel
        (('{' : Char) :: ((serEntriesList (e :: t) ++ ['}']) ++ r)) = _
    rw [parseObj.eq_def]
    dsimp only
    rw [if_pos rfl]
    rw [htl]
    simp only [List.cons_append, List.singleton_append, List.append_assoc,
      List.nil_append]
    rw [if_neg (show ¬('"' : Char) = '}' by decide)]
    have hback : ('"' : Char) :: (tl ++ '}' :: r) = serEntriesList (e :: t) ++ '}' :: r := by
      rw [htl, List.cons_append]
    rw [hback, parseEntries_ser (e :: t) (by simp) sfuel efuel r hs he hr]

theorem serObj_inj (l1 l2 : JObj) (h : serObj l1 = serObj l2) : l1 = l2 := by
  rcases l1 with _ | ⟨e1, t1⟩
  · rcases l2 with _ | ⟨e2, t2⟩
    · rfl
    · exfalso
      obtain ⟨tl, htl⟩ := serEntriesList_cons_eq e2 t2
      rw [serObj, serObj, htl] at h
      simp only [serEntriesList, List.nil_append, List.cons_append] at h
      injection h with h1 h2
      injection h2 with h3 h4
      exact absurd h3 (by decide)
  · rcases l2 with _ | ⟨e2, t2⟩
    · exfalso
      obtain ⟨tl, htl⟩ := serEntriesList_cons_eq e1 t1
      rw [serObj, serObj, htl] at h
      simp only [serEntriesList, List.nil_append, List.cons_append] at h
      injection h with h1 h2
      injection h2 with h3 h4
      exact absurd h3 (by decide)
    · set F := (serEntriesList (e1 :: t1)).length + (serEntriesList (e2 :: t2)).length
        + (e1 :: t1).length + (e2 :: t2).length + 1 with hFdef
      have h1 := parseObj_ser (e1 :: t1) F F [] (by omega) (by omega) rfl
      have h2 := parseObj_ser (e2 :: t2) F F [] (by omega) (by omega) rfl
      rw [List.append_nil] at h1 h2
      rw [h, h2] at h1
      have h3 := Option.some.inj h1
      exact (Prod.ext_iff.mp h3).1.symm

theorem nodupKeys_of_perm {l l2 : JObj} (hp : l.Perm l2) (h : NodupKeys l) :
    NodupKeys l2 :=
  ((hp.map Prod.fst).nodup_iff).mp h

theorem pairwise_keyLT_of_sorted {l : JObj} (hs : List.Sorted keyLE l)
    (hnd : NodupKeys l) : List.Pairwise (fun a b : String × JValue => a.1 < b.1) l := by
  have hne : List.Pairwise (fun a b : String × JValue => a.1 ≠ b.1) l := by
    rw [NodupKeys, List.Nodup] at hnd
    exact (List.pairwise_map).mp hnd
  exact (hs.and hne).imp (fun h => lt_of_le_of_ne h.1 h.2)

theorem dget?_of_perm {l l2 : JObj} (hnd : NodupKeys l) (hp : l.Perm l2) (k : String) :
    dget? l k = dget? l2 k := by
  have hnd2 : NodupKeys l2 := nodupKeys_of_perm hp hnd
  rcases h : dget? l k with _ | v
  · rcases h2 : dget? l2 k with _ | v2
    · rfl
    · exfalso
      have hm : (k, v2) ∈ l := hp.symm.subset (mem_of_dget? h2)
      rw [dget?_of_mem hnd hm] at h
      cases h
  · exact (dget?_of_mem hnd2 (hp.subset (mem_of_dget? h))).symm

theorem insertionSort_eq_of_eqAsMaps (m m2 : JObj) (h1 : NodupKeys m)
    (h2 : NodupKeys m2) (heq : EqAsMaps m m2) :
    m.insertionSort keyLE = m2.insertionSort keyLE := by
  have hm : m.Perm m2 := by
    refine (List.perm_ext_iff_of_nodup (List.Nodup.of_map Prod.fst h1)
      (List.Nodup.of_map Prod.fst h2)).mpr ?_
    rintro ⟨k, v⟩
    constructor
    · intro hmem
      exact mem_of_dget? ((heq k) ▸ dget?_of_mem h1 hmem)
    · intro hmem
      exact mem_of_dget? ((heq k).symm ▸ dget?_of_mem h2 hmem)
  have hperm : (m.insertionSort keyLE).Perm (m2.insertionSort keyLE) :=
    ((List.perm_insertionSort keyLE m).trans hm).trans
      (List.perm_insertionSort keyLE m2).symm
  haveI hA : IsAntisymm (String × JValue) (fun a b : String × JValue => a.1 < b.1) :=
    ⟨fun _ _ hab hba => absurd hba (lt_asymm hab)⟩
  exact @List.eq_of_perm_of_sorted _ (fun a b : String × JValue => a.1 < b.1) hA _ _
    hperm
    (pairwise_keyLT_of_sorted (List.sorted_insertionSort keyLE m)
      (nodupKeys_of_perm (List.perm_insertionSort keyLE m).symm h1))
    (pairwise_keyLT_of_sorted (List.sorted_insertionSort keyLE m2)
      (nodupKeys_of_perm (List.perm_insertionSort keyLE m2).symm h2))

theorem canonicalJson_inj (m m2 : JObj)
    (h : canonicalJson m = canonicalJson m2) :
    m.insertionSort keyLE = m2.insertionSort keyLE := by
  unfold canonicalJson at h
  exact serObj_inj _ _ (congrArg String.data h)

/-- C9: for every message dict `m` (unique keys, scalar JSON values) and
agent secret, (1) a signature produced by `sign_message` verifies; (2) the
signature is invariant under permuting the key insertion order — two dicts
equal as key-value maps sign identically, by `sort_keys` canonicalization;
(3) mutating any field after signing makes verification fail, under the
standard idealization that the (abstracted) HMAC-SHA256 is injective in the
signed payload for a fixed key. -/
theorem claim_c9 (mac : String → String → String) (server_secret agent_secret : String)
    (m m2 : JObj) (f : String) (v v2 : JValue)
    (hmacInj : ∀ key, Function.Injective (mac key))
    (hnd : NodupKeys m) (hnd2 : NodupKeys m2) (heq : EqAsMaps m m2)
    (hv : dget? m f = some v) (hne : v2 ≠ v) :
    verify_message mac server_secret m
        (sign_message mac server_secret m agent_secret) agent_secret = true ∧
      sign_message mac server_secret m agent_secret
        = sign_message mac server_secret m2 agent_secret ∧
      verify_message mac server_secret (dset m f v2)
        (sign_message mac server_secret m agent_secret) agent_secret = false := by
  refine ⟨?_, ?_, ?_⟩
  · unfold verify_message
    exact beq_self_eq_true _
  · unfold sign_message canonicalJson
    rw [insertionSort_eq_of_eqAsMaps m m2 hnd hnd2 heq]
  · unfold verify_message
    rw [beq_eq_false_iff_ne]
    intro hsig
    have hcanon : canonicalJson m = canonicalJson (dset m f v2) :=
      hmacInj (server_secret ++ agent_secret) hsig
    have hsort := canonicalJson_inj m (dset m f v2) hcanon
    have hndm : NodupKeys (dset m f v2) := nodupKeys_dset m f v2 hnd
    have hget : dget? m f = dget? (dset m f v2) f := by
      calc dget? m f
          = dget? (m.insertionSort keyLE) f :=
            dget?_of_perm hnd (List.perm_insertionSort keyLE m).symm f
        _ = dget? ((dset m f v2).insertionSort keyLE) f := by rw [hsort]
        _ = dget? (dset m f v2) f :=
            (dget?_of_perm hndm (List.perm_insertionSort keyLE (dset m f v2)).symm f).symm
    rw [hv, dget?_dset_self] at hget
    exact hne (Option.some.inj hget.symm)

theorem claim_c9_witness :
    verify_message (fun _ s => s) "srv" [("b", JValue.jint 1), ("a", JValue.jstr "x")]
        (sign_message (fun _ s => s) "srv" [("b", JValue.jint 1), ("a", JValue.jstr "x")]
          "sec") "sec" = true ∧
      sign_message (fun _ s => s) "srv" [("b", JValue.jint 1), ("a", JValue.jstr "x")] "sec"
        = sign_message (fun _ s => s) "srv" [("a", JValue.jstr "x"), ("b", JValue.jint 1)]
            "sec" ∧
      verify_message (fun _ s => s) "srv"
        (dset [("b", JValue.jint 1), ("a", JValue.jstr "x")] "a" (JValue.jstr "y"))
        (sign_message (fun _ s => s) "srv" [("b", JValue.jint 1), ("a", JValue.jstr "x")]
          "sec") "sec" = false :=
  claim_c9 (fun _ s => s) "srv" "sec"
    [("b", JValue.jint 1), ("a", JValue.jstr "x")]
    [("a", JValue.jstr "x"), ("b", JValue.jint 1)]
    "a" (JValue.jstr "x") (JValue.jstr "y")
    (fun _ _ _ h => h)
    (by decide) (by decide)
    (by
      intro fx
      by_cases h1 : "b" = fx
      · by_cases h2 : "a" = fx
        · exact absurd (h1.trans h2.symm) (by decide)
        · simp [dget?, h1, h2]
      · by_cases h2 : "a" = fx
        · simp [dget?, h1, h2]
        · simp [dget?, h1, h2])
    (by decide) (by decide)
